import Mathlib

/-!
Food journal: data layer and query/aggregation logic.

A shallow embedding of `src/screens/homeScreen.js` (the `HomeScreen` component's
state, `getStats`, `filteredJournals`, `saveJournal`, `deleteJournal`,
`loadJournals`, `resetForm`, the chart of `StatsComponent`) together with the SQL
statements it issues against the `journals` table, and of
`src/components/database/database.js` (`initDatabase`, `getSql`, `executeSql` over the
module variables `db` and `isInitialized`), both for calls that run one after the other
and for calls that overlap at their `await`s.

Conventions.
* A row of `journals` is a `Journal`; `rating` is `Option Int` (`none` is SQL NULL).
* JavaScript Numbers that hold integers are modelled by `Int`/`Nat`; this is exact
  as long as the magnitudes stay below `2^53`, and the theorems that depend on it
  carry that bound as a hypothesis (`SafeRatings`).
* The one genuinely fractional Number, the quotient `totalRating / journals.length`,
  is modelled by `Num`, with `numDiv` the correctly rounded IEEE-754 binary64
  quotient and `toFixed1` the algorithm of `Number.prototype.toFixed(1)`.
-/

namespace FoodJournal

/-! ## Data model -/

/-- One row of the `journals` table (database.js, `CREATE TABLE IF NOT EXISTS journals`). -/
structure Journal where
  id : Nat
  userId : Nat
  image : String
  description : String
  date : String
  category : String
  rating : Option Int
  deriving DecidableEq, Repr

/-- The constant `categories` of homeScreen.js line 41. -/
def categories : List String := ["All", "Breakfast", "Lunch", "Dinner", "Snacks"]

/-- A value stored under a key of the `stats` object: a count or a string. -/
inductive StatValue where
  | count (n : Nat)
  | text (s : String)
  deriving DecidableEq, Repr

/-- A JavaScript object with string keys, as its list of own properties in insertion order. -/
abbrev Stats := List (String × StatValue)

/-- Property assignment `obj[key] = v`: overwrite an existing key in place, else append. -/
def setKey : Stats → String → StatValue → Stats
  | [], key, v => [(key, v)]
  | (k, w) :: rest, key, v =>
    if k = key then (k, v) :: rest else (k, w) :: setKey rest key v

/-- Property read `obj[key]`; `none` is `undefined`. -/
def getKey : Stats → String → Option StatValue
  | [], _ => none
  | (k, w) :: rest, key => if k = key then some w else getKey rest key

/-! ## The Number produced by the average -/

/-- The JavaScript Number values that the quotient of two integers can take:
`NaN`, an infinity, or the finite value `± num / den`. -/
inductive Num where
  | nan
  | inf (neg : Bool)
  | fin (neg : Bool) (num den : Nat)
  deriving DecidableEq, Repr

/-- The search for the leading one bit of `n`, halving at most `fuel` times. -/
def log2Aux : Nat → Nat → Nat
  | 0, _ => 0
  | fuel + 1, n => if n < 2 then 0 else log2Aux fuel (n / 2) + 1

/-- The position of the leading one bit of `n` (`floor (log2 n)` for `n ≥ 1`, and 0 for 0). -/
def ilog2 (n : Nat) : Nat := log2Aux n n

/-- Round-to-nearest, ties-to-even, of the positive rational `a / b` to a 53-bit
significand (IEEE-754 binary64 division of two exactly representable positive
integers; no overflow or subnormal can occur for operands below `2^53`).

`a * 2^k / b` with `k = 54 + ilog2 b` has at least 54 bits; all but its leading 53
bits are dropped, and the dropped part (with the division remainder as a sticky
bit) decides the direction.  The result is the pair `(num, den)` of the value
`num / den`, `den = 2^k`. -/
def roundDiv (a b : Nat) : Nat × Nat :=
  let k := 54 + ilog2 b
  let q := a * 2 ^ k / b
  let r := a * 2 ^ k % b
  let s := ilog2 q - 52
  let m0 := q / 2 ^ s
  let rem := q % 2 ^ s
  let half := 2 ^ (s - 1)
  let up : Bool :=
    decide (half < rem) || (decide (rem = half) && (decide (r ≠ 0) || decide (m0 % 2 = 1)))
  ((if up then m0 + 1 else m0) * 2 ^ s, 2 ^ k)

/-- The Number `t / n` for an integer `t` and a length `n` (JavaScript `/`). -/
def numDiv (t : Int) (n : Nat) : Num :=
  if n = 0 then
    if t = 0 then Num.nan else Num.inf (decide (t < 0))
  else if t = 0 then Num.fin false 0 1
  else
    let p := roundDiv t.natAbs n
    Num.fin (decide (t < 0)) p.1 p.2

/-- The decimal digits of `n` followed by nothing else (JavaScript `String(n)` for a
non-negative integer below `10^21`). -/
def digits (n : Nat) : String := toString n

/-- The text of `n / 10` with exactly one digit after the point. -/
def oneDecimal (n : Nat) : String := digits (n / 10) ++ "." ++ digits (n % 10)

/-- The integer `n` for which `n / 10 - x` is as close to zero as possible, the larger
one on a tie, for `x = num / den` (step 6.a of `Number.prototype.toFixed`, one
fraction digit). -/
def nearestTenths (num den : Nat) : Nat := (20 * num + den) / (2 * den)

/-- The result of `x.toFixed(1)` for a Number `x` of magnitude below `10^21`. -/
def toFixed1 : Num → String
  | Num.nan => "NaN"
  | Num.inf false => "Infinity"
  | Num.inf true => "-Infinity"
  | Num.fin neg num den =>
    (if neg then "-" else "") ++ oneDecimal (nearestTenths num den)

/-! ## `getStats` -/

/-- The operand `journal.rating || 3`: a falsy rating (`null` or `0`) is replaced by 3. -/
def ratingOr3 : Option Int → Int
  | none => 3
  | some r => if r = 0 then 3 else r

/-- The accumulator `totalRating` of `getStats` (homeScreen.js lines 221-224). -/
def totalRating (journals : List Journal) : Int :=
  journals.foldl (fun sum journal => sum + ratingOr3 journal.rating) 0

/-- The value stored under `AverageRating` (homeScreen.js lines 225-227). -/
def averageRating (journals : List Journal) : String :=
  if journals.length ≠ 0 then toFixed1 (numDiv (totalRating journals) journals.length)
  else "N/A"

/-- The function `getStats` of homeScreen.js lines 210-230, on the `journals` state. -/
def getStats (journals : List Journal) : Stats :=
  let stats : Stats := categories.foldl
    (fun acc cat =>
      if cat ≠ "All" then
        setKey acc cat
          (StatValue.count (journals.filter (fun item => decide (item.category = cat))).length)
      else acc)
    []
  let stats := setKey stats "Total" (StatValue.count journals.length)
  setKey stats "AverageRating" (StatValue.text (averageRating journals))

/-! ## `filteredJournals` -/

/-- The test `hay.includes(needle)`: `needle` occurs as a contiguous run of `hay`.
On well-formed strings an occurrence in UTF-16 code units is an occurrence in code
points and conversely, so the characters of a Lean `String` serve. -/
def includes (hay needle : String) : Bool :=
  hay.data.tails.any (fun t => needle.data.isPrefixOf t)

/-- The constant `filteredJournals` of homeScreen.js lines 233-239, as a function of
the state it reads.  `toLowerCase` is the runtime's `String.prototype.toLowerCase`. -/
def filteredJournals (toLowerCase : String → String) (journals : List Journal)
    (category searchQuery : String) : List Journal :=
  journals.filter (fun item =>
    let matchesCategory := decide (category = "All") || decide (item.category = category)
    let matchesSearch :=
      if searchQuery ≠ "" then includes (toLowerCase item.description) (toLowerCase searchQuery)
      else true
    matchesCategory && matchesSearch)

/-- The filter as the specification words it (`filterEntries`): keep an entry when the
category is the sentinel or equals the entry's, and the search text is empty or occurs,
case-insensitively, in the description. -/
def filterEntriesSpec (toLowerCase : String → String) (entries : List Journal)
    (category searchText : String) : List Journal :=
  entries.filter (fun e =>
    decide ((category = "All" ∨ e.category = category) ∧
      (searchText = "" ∨ (toLowerCase searchText).data <:+: (toLowerCase e.description).data)))

/-! ## `String.prototype.trim` -/

/-- The code points of ECMAScript `WhiteSpace` and `LineTerminator`. -/
def isJsWhitespace (c : Char) : Bool :=
  let n := c.toNat
  n = 0x9 || n = 0xA || n = 0xB || n = 0xC || n = 0xD || n = 0x20 || n = 0xA0 ||
  n = 0x1680 || (0x2000 ≤ n && n ≤ 0x200A) || n = 0x2028 || n = 0x2029 ||
  n = 0x202F || n = 0x205F || n = 0x3000 || n = 0xFEFF

/-- The method `s.trim()`: leading and trailing white space removed. -/
def trim (s : String) : String :=
  String.mk ((s.data.dropWhile isJsWhitespace).reverse.dropWhile isJsWhitespace).reverse

/-! ## The `journals` table and the statements issued against it -/

/-- The `journals` table: its rows in rowid order and the `sqlite_sequence` counter that
`AUTOINCREMENT` keeps (the largest rowid ever handed out). -/
structure Table where
  rows : List Journal
  seq : Nat
  deriving DecidableEq, Repr

/-- The three write statements of homeScreen.js with their bound parameters:
line 144 (`UPDATE journals SET image = ?, description = ?, category = ?, rating = ?
WHERE id = ?`), line 151 (`INSERT INTO journals (userId, image, description, category,
date, rating) VALUES (?, ?, ?, ?, ?, ?)`) and line 186 (`DELETE FROM journals WHERE id = ?`). -/
inductive Stmt where
  | update (image description category : String) (rating : Int) (id : Nat)
  | insert (userId : Nat) (image description category date : String) (rating : Int)
  | delete (id : Nat)
  deriving DecidableEq, Repr

/-- The largest `id` among the rows (0 for an empty table). -/
def maxId (rows : List Journal) : Nat :=
  rows.foldl (fun m r => max m r.id) 0

/-- The effect of a write statement on the table.  An `UPDATE` or `DELETE` whose `WHERE`
matches no row changes nothing; `INSERT` takes the rowid one above the largest that ever
existed.  Foreign keys are not enforced (no `PRAGMA foreign_keys`). -/
def exec (t : Table) : Stmt → Table
  | Stmt.update image description category rating id =>
    { t with rows := t.rows.map (fun r =>
        if r.id = id then
          { r with image := image, description := description, category := category,
                   rating := some rating }
        else r) }
  | Stmt.insert userId image description category date rating =>
    let id := max t.seq (maxId t.rows) + 1
    { rows := t.rows ++ [{ id := id, userId := userId, image := image,
                           description := description, date := date, category := category,
                           rating := some rating }],
      seq := id }
  | Stmt.delete id =>
    { t with rows := t.rows.filter (fun r => decide (r.id ≠ id)) }

/-- The query of `loadJournals`, homeScreen.js line 68:
`SELECT * FROM journals WHERE userId = ? ORDER BY date DESC`.  The `TEXT` column is
compared bytewise on its UTF-8 encoding, which is the lexicographic order of the code
points, the order of the character lists. -/
def listEntries (t : Table) (userId : Nat) : List Journal :=
  (t.rows.filter (fun r => decide (r.userId = userId))).insertionSort
    (fun a b => b.date.data ≤ a.date.data)

/-! ## The state of `HomeScreen` and its handlers -/

/-- The `useState` cells of `HomeScreen` that the data logic reads or writes. -/
structure Screen where
  image : Option String
  description : String
  journals : List Journal
  editingId : Option Nat
  category : String
  searchQuery : String
  mealRating : Int
  deriving DecidableEq, Repr

/-- The initial values of the `useState` cells (homeScreen.js lines 28-37). -/
def initialScreen : Screen :=
  { image := none, description := "", journals := [], editingId := none,
    category := "All", searchQuery := "", mealRating := 3 }

/-- The store and the screen together. -/
structure World where
  table : Table
  screen : Screen
  deriving DecidableEq, Repr

/-- The function `resetForm` of homeScreen.js lines 201-207. -/
def resetForm (s : Screen) : Screen :=
  { s with image := none, description := "", editingId := none, category := "All",
           mealRating := 3 }

/-- The statement `saveJournal` issues (homeScreen.js lines 126-160), or `none` when it
returns before issuing one: the image is falsy, the trimmed description is empty, or
`route.params?.userId` is falsy.  `now` is `new Date().toISOString()`. -/
def saveStmt (s : Screen) (userId : Option Nat) (now : String) : Option Stmt :=
  match s.image with
  | none => none
  | some image =>
    if image = "" ∨ trim s.description = "" then none
    else
      match userId with
      | none => none
      | some uid =>
        if uid = 0 then none
        else
          match s.editingId with
          | none =>
            some (Stmt.insert uid image (trim s.description) s.category now s.mealRating)
          | some editingId =>
            if editingId ≠ 0 then
              some (Stmt.update image (trim s.description) s.category s.mealRating editingId)
            else
              some (Stmt.insert uid image (trim s.description) s.category now s.mealRating)

/-- The function `loadJournals` of homeScreen.js lines 59-77.  `ok` tells whether `getSql`
resolved; when it rejects the error is caught and `journals` keeps its value. -/
def loadJournals (w : World) (userId : Option Nat) (ok : Bool) : World :=
  match userId with
  | none => w
  | some uid =>
    if uid = 0 then w
    else if ok then { w with screen := { w.screen with journals := listEntries w.table uid } }
    else w

/-- The function `saveJournal` of homeScreen.js lines 125-170.  `execOk` and `loadOk` tell
whether `executeSql` and the `getSql` of `loadJournals` resolved; a rejected `executeSql`
leaves the table as it was and is caught before `loadJournals` and `resetForm` run. -/
def saveJournal (w : World) (userId : Option Nat) (now : String) (execOk loadOk : Bool) :
    World :=
  match saveStmt w.screen userId now with
  | none => w
  | some stmt =>
    if execOk then
      let w1 := loadJournals { w with table := exec w.table stmt } userId loadOk
      { w1 with screen := resetForm w1.screen }
    else w

/-- The `Delete` button of the confirmation raised by `deleteJournal`
(homeScreen.js lines 184-193); `Cancel` does nothing. -/
def deleteJournal (w : World) (userId : Option Nat) (id : Nat) (confirm execOk loadOk : Bool) :
    World :=
  if confirm && execOk then loadJournals { w with table := exec w.table (Stmt.delete id) } userId loadOk
  else w

/-- The `Edit` button of a listed entry (homeScreen.js lines 555-561). -/
def startEdit (s : Screen) (item : Journal) : Screen :=
  { s with editingId := some item.id, description := item.description,
           image := some item.image, category := item.category,
           mealRating := ratingOr3 item.rating }

/-- What the user can do on the screen.  A star is one of the five rendered by
`renderStarRating` (values 1 to 5), a picker item one of `categories`, and an edited or
deleted entry one of the loaded `journals` (the list shows `filteredJournals`, a part of
them), given by its position. -/
inductive Action where
  | pressStar (star : Fin 5)
  | setDescription (text : String)
  | setImage (uri : String)
  | setCategory (item : Fin 5)
  | setSearchQuery (text : String)
  | resetForm
  | startEdit (index : Nat)
  | saveJournal (now : String) (execOk loadOk : Bool)
  | deleteJournal (index : Nat) (confirm execOk loadOk : Bool)
  | loadJournals (ok : Bool)
  deriving Repr

/-- One action on the world, for the signed-in `route.params?.userId`. -/
def step (userId : Option Nat) (w : World) : Action → World
  | Action.pressStar star => { w with screen := { w.screen with mealRating := (star.val : Int) + 1 } }
  | Action.setDescription text => { w with screen := { w.screen with description := text } }
  | Action.setImage uri => { w with screen := { w.screen with image := some uri } }
  | Action.setCategory item =>
    { w with screen := { w.screen with category := categories.getD item.val "All" } }
  | Action.setSearchQuery text => { w with screen := { w.screen with searchQuery := text } }
  | Action.resetForm => { w with screen := resetForm w.screen }
  | Action.startEdit index =>
    match w.screen.journals.get? index with
    | some item => { w with screen := startEdit w.screen item }
    | none => w
  | Action.saveJournal now execOk loadOk => saveJournal w userId now execOk loadOk
  | Action.deleteJournal index confirm execOk loadOk =>
    match w.screen.journals.get? index with
    | some item => deleteJournal w userId item.id confirm execOk loadOk
    | none => w
  | Action.loadJournals ok => loadJournals w userId ok

/-- A sequence of actions, from left to right. -/
def run (userId : Option Nat) (w : World) (actions : List Action) : World :=
  actions.foldl (step userId) w

/-- Every stored rating is absent or within 1 to 5. -/
def RatingsInRange (rows : List Journal) : Prop :=
  ∀ r ∈ rows, ∀ v, r.rating = some v → 1 ≤ v ∧ v ≤ 5

/-- The stored ratings, the loaded ratings and the form's rating are all within 1 to 5. -/
def RatingInvariant (w : World) : Prop :=
  RatingsInRange w.table.rows ∧ RatingsInRange w.screen.journals ∧
    1 ≤ w.screen.mealRating ∧ w.screen.mealRating ≤ 5

/-- The ratings add up, in magnitude, to less than `2^53 / 20`: every partial sum of
`totalRating` and the length are then exactly representable Numbers, and the quotient is
far below `10^21`. -/
def SafeRatings (journals : List Journal) : Prop :=
  20 * (journals.map (fun j => (ratingOr3 j.rating).natAbs)).sum < 2 ^ 53

instance (journals : List Journal) : Decidable (SafeRatings journals) :=
  inferInstanceAs (Decidable (_ < _))

/-- The rating a write statement binds to the `rating` column (`none` for `DELETE`,
which writes no row). -/
def writtenRating : Stmt → Option Int
  | Stmt.update _ _ _ rating _ => some rating
  | Stmt.insert _ _ _ _ _ rating => some rating
  | Stmt.delete _ => none

/-! ## Sample data -/

/-- A fresh store under the initial screen. -/
def emptyWorld : World := { table := { rows := [], seq := 0 }, screen := initialScreen }

/-- A store with three rows of two users; row 2 has no rating. -/
def sampleTable : Table :=
  { rows :=
      [{ id := 1, userId := 1, image := "a", description := "Eggs",
         date := "2024-01-01T08:00:00.000Z", category := "Breakfast", rating := some 5 },
       { id := 2, userId := 2, image := "b", description := "Toast",
         date := "2024-01-02T08:00:00.000Z", category := "Breakfast", rating := none },
       { id := 4, userId := 1, image := "c", description := "Soup",
         date := "2024-01-02T12:00:00.000Z", category := "Lunch", rating := some 4 }],
    seq := 5 }

/-- The screen of user 1 over `sampleTable` with a filled-in form. -/
def sampleWorld : World :=
  { table := sampleTable,
    screen := { initialScreen with image := some "img1", description := " Oatmeal ",
                                   category := "Breakfast", mealRating := 4 } }

/-- The entries of the specification's aggregation example: ratings 5, 3, 4 and categories
Breakfast, Breakfast, Lunch. -/
def sampleEntries : List Journal :=
  [{ id := 1, userId := 1, image := "a", description := "Eggs",
     date := "2024-01-01T08:00:00.000Z", category := "Breakfast", rating := some 5 },
   { id := 2, userId := 1, image := "b", description := "Toast",
     date := "2024-01-02T08:00:00.000Z", category := "Breakfast", rating := some 3 },
   { id := 3, userId := 1, image := "c", description := "Soup",
     date := "2024-01-02T12:00:00.000Z", category := "Lunch", rating := some 4 }]

/-- Twenty entries, nineteen rated 1 and the last rated `last`. -/
def twentyEntries (last : Int) : List Journal :=
  List.replicate 19
    { id := 1, userId := 1, image := "a", description := "Rice",
      date := "2024-01-01T08:00:00.000Z", category := "Dinner", rating := some 1 } ++
  [{ id := 2, userId := 1, image := "b", description := "Stew",
     date := "2024-01-02T08:00:00.000Z", category := "Dinner", rating := some last }]

/-- One stored entry whose rating is the integer 0. -/
def zeroRated : List Journal :=
  [{ id := 1, userId := 1, image := "img1", description := "Tea",
     date := "2024-01-01T08:00:00.000Z", category := "Snacks", rating := some 0 }]

/-! ## The mean, as the specification words it -/

/-- The rating an entry contributes to the mean as the specification words it: 3 for a
missing rating, the rating itself otherwise. -/
def ratingOrDefault : Option Int → Int
  | none => 3
  | some r => r

/-- The text is the mean of the contributions rounded to one decimal: the sign of the sum
followed by `n / 10` written with one decimal, for an `n` with `n / 10` a nearest multiple
of one tenth to the magnitude of the mean (either neighbour when the mean lies halfway). -/
def IsMeanToOneDecimal (contrib : Option Int → Int) (journals : List Journal)
    (text : String) : Prop :=
  ∃ n : Nat,
    text = (if (journals.map (fun j => contrib j.rating)).sum < 0 then "-" else "")
            ++ oneDecimal n ∧
    2 * |10 * |(journals.map (fun j => contrib j.rating)).sum| - (n : Int) * journals.length|
      ≤ journals.length

/-! ## What a write statement binds -/

/-- The image a write statement binds to the `image` column. -/
def writtenImage : Stmt → Option String
  | Stmt.update image _ _ _ _ => some image
  | Stmt.insert _ image _ _ _ _ => some image
  | Stmt.delete _ => none

/-- The description a write statement binds to the `description` column. -/
def writtenDescription : Stmt → Option String
  | Stmt.update _ description _ _ _ => some description
  | Stmt.insert _ _ description _ _ _ => some description
  | Stmt.delete _ => none

/-! ## The chart of `StatsComponent` -/

/-- The product `x * 100` of a Number with 100, correctly rounded (the exact product of
`num / den` and 100 is the rational `100 * num / den`). -/
def numMul100 : Num → Num
  | Num.nan => Num.nan
  | Num.inf neg => Num.inf neg
  | Num.fin neg num den =>
    if num = 0 then Num.fin neg 0 den
    else Num.fin neg (roundDiv (100 * num) den).1 (roundDiv (100 * num) den).2

/-- The operand `stats[cat] || 0` of homeScreen.js line 310, for the keys the chart reads
(`categories.slice(1)`, whose values are counts): the count, and 0 for `undefined`. -/
def countOrZero : Option StatValue → Nat
  | some (StatValue.count n) => n
  | _ => 0

/-- The constant `percentage` of homeScreen.js lines 311-313 for the chart row of `cat`. -/
def chartPercentage (journals : List Journal) (cat : String) : Num :=
  let count := countOrZero (getKey (getStats journals) cat)
  if journals.length ≠ 0 then numMul100 (numDiv count journals.length)
  else Num.fin false 0 1

/-! ## The module `database.js` -/

/-- An error value thrown by the SQLite runtime. -/
abbrev Err := String

/-- The calls the module makes on the runtime, in the order made.  A connection is named
by the number of connections opened before it. -/
inductive Op where
  | openDatabase
  | pragma (conn : Nat)
  | createUsers (conn : Nat)
  | createJournals (conn : Nat)
  | commit (conn : Nat)
  | rollback (conn : Nat)
  | getAll (conn : Nat) (query : String)
  | runStmt (conn : Nat) (query : String)
  deriving DecidableEq, Repr

/-- The module variables `db` and `isInitialized` (database.js lines 4-5). -/
structure Module where
  db : Option Nat
  isInitialized : Bool
  deriving DecidableEq, Repr

/-- The values of the module variables when the module is loaded. -/
def initialModule : Module := { db := none, isInitialized := false }

/-- The file `FoodJournal.db` as the module's calls see it: the names of its tables, the
number of connections opened so far, and the calls made. -/
structure Store where
  tables : List String
  opened : Nat
  log : List Op
  deriving DecidableEq, Repr

/-- The awaited steps of `initDatabase` that can reject. -/
inductive InitStep where
  | openDatabase
  | pragma
  | createUsers
  | createJournals
  | commit
  deriving DecidableEq, Repr

/-- What the runtime does during one call of `initDatabase`: nothing fails, or the given
step rejects with the given error. -/
abbrev InitFault := Option (InitStep × Err)

/-- The error with which `step` rejects, if it is the one that does. -/
def faultAt (fault : InitFault) (step : InitStep) : Option Err :=
  match fault with
  | some (s, e) => if s = step then some e else none
  | none => none

/-- What a call leaves behind: what it returned or threw, and the module and store after it. -/
structure Outcome (α : Type) where
  result : Except Err α
  module : Module
  store : Store

/-- The statement `CREATE TABLE IF NOT EXISTS name`. -/
def createTable (tables : List String) (name : String) : List String :=
  if name ∈ tables then tables else tables ++ [name]

/-- The function `initDatabase` of database.js lines 8-52.  The two `CREATE TABLE`
statements run inside `withTransactionAsync`: when one of them or the commit rejects the
transaction is rolled back and the tables are as before.  The `catch` logs and rethrows
the same error. -/
def initDatabase (m : Module) (st : Store) (fault : InitFault) : Outcome (Option Nat) :=
  if m.isInitialized then { result := Except.ok m.db, module := m, store := st }
  else
    match faultAt fault InitStep.openDatabase with
    | some e =>
      { result := Except.error e, module := m,
        store := { st with log := st.log ++ [Op.openDatabase] } }
    | none =>
      let conn := st.opened
      let m1 : Module := { m with db := some conn }
      let st1 : Store := { st with opened := st.opened + 1, log := st.log ++ [Op.openDatabase] }
      match faultAt fault InitStep.pragma with
      | some e =>
        { result := Except.error e, module := m1,
          store := { st1 with log := st1.log ++ [Op.pragma conn] } }
      | none =>
        match faultAt fault InitStep.createUsers with
        | some e =>
          { result := Except.error e, module := m1,
            store := { st1 with log := st1.log ++
              [Op.pragma conn, Op.createUsers conn, Op.rollback conn] } }
        | none =>
          match faultAt fault InitStep.createJournals with
          | some e =>
            { result := Except.error e, module := m1,
              store := { st1 with log := st1.log ++
                [Op.pragma conn, Op.createUsers conn, Op.createJournals conn,
                 Op.rollback conn] } }
          | none =>
            match faultAt fault InitStep.commit with
            | some e =>
              { result := Except.error e, module := m1,
                store := { st1 with log := st1.log ++
                  [Op.pragma conn, Op.createUsers conn, Op.createJournals conn,
                   Op.rollback conn] } }
            | none =>
              { result := Except.ok (some conn),
                module := { m1 with isInitialized := true },
                store := { st1 with
                  tables := createTable (createTable st1.tables "users") "journals",
                  log := st1.log ++
                    [Op.pragma conn, Op.createUsers conn, Op.createJournals conn,
                     Op.commit conn] } }

/-- The error of calling a method on `db` while it is `null`. -/
def nullError : Err := "TypeError: Cannot read properties of null"

/-- The common body of `getSql` and `executeSql` (database.js lines 54-83): initialise if
the flag is not set, then run the statement on `db`; `outcome` is what the statement
resolves or rejects with, `op` the call made.  The `catch` logs and rethrows. -/
def withDatabase {α : Type} (op : Nat → Op) (m : Module) (st : Store) (fault : InitFault)
    (outcome : Except Err α) : Outcome α :=
  let o : Outcome (Option Nat) :=
    if m.isInitialized then { result := Except.ok m.db, module := m, store := st }
    else initDatabase m st fault
  match o.result with
  | Except.error e => { result := Except.error e, module := o.module, store := o.store }
  | Except.ok _ =>
    match o.module.db with
    | none => { result := Except.error nullError, module := o.module, store := o.store }
    | some conn =>
      { result := outcome, module := o.module,
        store := { o.store with log := o.store.log ++ [op conn] } }

/-- The function `getSql` of database.js lines 54-67 (`db.getAllAsync(query, params)`). -/
def getSql {α : Type} (query : String) (m : Module) (st : Store) (fault : InitFault)
    (outcome : Except Err α) : Outcome α :=
  withDatabase (fun conn => Op.getAll conn query) m st fault outcome

/-- The function `executeSql` of database.js lines 70-83 (`db.runAsync(query, params)`). -/
def executeSql {α : Type} (query : String) (m : Module) (st : Store) (fault : InitFault)
    (outcome : Except Err α) : Outcome α :=
  withDatabase (fun conn => Op.runStmt conn query) m st fault outcome

/-- One call of an exported function, with what the runtime does during it. -/
inductive Call where
  | initDatabase (fault : InitFault)
  | getSql (query : String) (fault : InitFault) (outcome : Except Err (List Journal))
  | executeSql (query : String) (fault : InitFault) (outcome : Except Err Unit)

/-- The module and store after one call. -/
def afterCall (s : Module × Store) : Call → Module × Store
  | Call.initDatabase fault =>
    ((initDatabase s.1 s.2 fault).module, (initDatabase s.1 s.2 fault).store)
  | Call.getSql query fault outcome =>
    ((getSql query s.1 s.2 fault outcome).module, (getSql query s.1 s.2 fault outcome).store)
  | Call.executeSql query fault outcome =>
    ((executeSql query s.1 s.2 fault outcome).module,
     (executeSql query s.1 s.2 fault outcome).store)

/-- The module and store after a sequence of calls that do not overlap: each call runs to
its end before the next is made (`initDatabase_alone` relates one such call to the events
of `advance`), from a freshly loaded module. -/
def afterCalls (st : Store) (calls : List Call) : Module × Store :=
  calls.foldl afterCall (initialModule, st)

/-- The module is ready: `db` is a connection that was opened and on which the schema
transaction committed, and both tables exist. -/
def Ready (m : Module) (st : Store) : Prop :=
  ∃ conn, m.db = some conn ∧ conn < st.opened ∧ Op.commit conn ∈ st.log ∧
    Op.createUsers conn ∈ st.log ∧ Op.createJournals conn ∈ st.log ∧
    "users" ∈ st.tables ∧ "journals" ∈ st.tables

/-- The flag implies readiness. -/
def FlagSound (m : Module) (st : Store) : Prop :=
  m.isInitialized = true → Ready m st

/-- The call is a statement run by `getSql` or `executeSql`. -/
def isStatement : Op → Bool
  | Op.getAll _ _ => true
  | Op.runStmt _ _ => true
  | _ => false

/-- The error contract of `getSql` and `executeSql` at a module state: a result is returned
exactly when the initialisation (if needed) and the statement both succeed, and it is the
statement's; an error of the initialisation is thrown as it is and no statement runs; an
error of the statement is thrown as it is; and the store is opened at most once and at most
one statement runs. -/
def PropagatesOnce {α : Type}
    (call : Module → Store → InitFault → Except Err α → Outcome α)
    (m : Module) (st : Store) : Prop :=
  ∀ (fault : InitFault) (outcome : Except Err α),
    (∀ r, (call m st fault outcome).result = Except.ok r ↔
      (m.isInitialized = true ∨ ∃ c, (initDatabase m st fault).result = Except.ok c) ∧
        outcome = Except.ok r)
    ∧ (∀ e, m.isInitialized = false → (initDatabase m st fault).result = Except.error e →
        (call m st fault outcome).result = Except.error e ∧
        (call m st fault outcome).store = (initDatabase m st fault).store)
    ∧ (∀ e, (m.isInitialized = true ∨ ∃ c, (initDatabase m st fault).result = Except.ok c) →
        outcome = Except.error e → (call m st fault outcome).result = Except.error e)
    ∧ ∃ ops, (call m st fault outcome).store.log = st.log ++ ops ∧
        ops.count Op.openDatabase ≤ 1 ∧ (ops.filter isStatement).length ≤ 1

/-- The guard of `getSql` and `executeSql` at a module state: either exactly one statement
runs, last, on the connection in `db`, with the flag set and the module ready on the calls
made before it; or the call throws, no statement runs and the flag is not set. -/
def GuardedBySchema {α : Type}
    (call : Module → Store → InitFault → Except Err α → Outcome α)
    (m : Module) (st : Store) : Prop :=
  ∀ (fault : InitFault) (outcome : Except Err α),
    (∃ ops op,
      (call m st fault outcome).store.log = st.log ++ ops ++ [op] ∧
      isStatement op = true ∧ ops.filter isStatement = [] ∧
      (call m st fault outcome).module.isInitialized = true ∧
      Ready (call m st fault outcome).module
        { (call m st fault outcome).store with log := st.log ++ ops } ∧
      (∃ conn query, (call m st fault outcome).module.db = some conn ∧
        (op = Op.getAll conn query ∨ op = Op.runStmt conn query)))
    ∨ (∃ e ops,
      (call m st fault outcome).result = Except.error e ∧
      (call m st fault outcome).store.log = st.log ++ ops ∧
      ops.filter isStatement = [] ∧
      (call m st fault outcome).module.isInitialized = false)

/-- A store that was never opened and holds no table. -/
def freshStore : Store := { tables := [], opened := 0, log := [] }

/-! ## Overlapping calls

`initDatabase`, `getSql` and `executeSql` are `async`: a call runs until its next `await`
and is resumed when the awaited promise settles, and other calls can be made or resumed in
between.  `Sys` holds the module variables together with the calls in flight; `advance`
makes one call or settles the promise one call awaits.  A statement takes effect on the
store when its promise settles; the tables themselves are not followed here. -/

/-- The exported function a call entered through. -/
inductive Entry where
  | initDatabase
  | getSql (query : String)
  | executeSql (query : String)
  deriving DecidableEq, Repr

/-- Where a call is suspended, by the promise it awaits, or how it ended.
`opening` is line 13, `pragma` line 16; `begin`, `commit` and `rollback` are the `BEGIN`,
`COMMIT` and `ROLLBACK` that `withTransactionAsync` (line 18) runs on the connection `txn`
it was called on; `createUsers` and `createJournals` are lines 19 and 27, on the connection
in `db` when they are issued; `initialized` is the `await initDatabase()` of line 57 or
73 once `initDatabase` has returned; `statement` is line 60 or 76.  `returned` is the
`return db` of `initDatabase`, `resolved` the `return result` of `getSql` and
`executeSql`, `threw` a rethrown error. -/
inductive Pc where
  | opening
  | pragma (conn : Nat)
  | begin (txn : Nat)
  | createUsers (txn conn : Nat)
  | createJournals (txn conn : Nat)
  | commit (txn : Nat)
  | rollback (txn : Nat) (e : Err)
  | initialized
  | statement (conn : Nat)
  | returned (db : Option Nat)
  | resolved
  | threw (e : Err)
  deriving DecidableEq, Repr

/-- A call in flight or finished. -/
structure Task where
  entry : Entry
  pc : Pc
  deriving DecidableEq, Repr

/-- The module variables, the number of connections opened, the connections on which a
schema transaction committed, the runtime calls issued, and the calls made so far. -/
structure Sys where
  module : Module
  opened : Nat
  committed : List Nat
  log : List Op
  tasks : List Task
  deriving DecidableEq, Repr

/-- A freshly loaded module over a store that was never opened, with no call made. -/
def freshSys : Sys :=
  { module := initialModule, opened := 0, committed := [], log := [], tasks := [] }

/-- What happens next: a call is made, or the promise awaited by the call numbered `task`
settles (resolves for `ok`, rejects with the error otherwise). -/
inductive Event where
  | call (entry : Entry)
  | settle (task : Nat) (outcome : Except Err Unit)

/-- The statement of lines 60 and 76, issued on the connection in `db`. -/
def issueStatement (entry : Entry) (s : Sys) : Pc × Sys :=
  match s.module.db with
  | none => (Pc.threw nullError, s)
  | some conn =>
    match entry with
    | Entry.initDatabase => (Pc.returned (some conn), s)
    | Entry.getSql query =>
      (Pc.statement conn, { s with log := s.log ++ [Op.getAll conn query] })
    | Entry.executeSql query =>
      (Pc.statement conn, { s with log := s.log ++ [Op.runStmt conn query] })

/-- Lines 45-47 once the transaction has committed on `txn`: the flag is set and
`initDatabase` returns `db`; `getSql` and `executeSql` are resumed later, from their
`await initDatabase()`. -/
def finishInit (entry : Entry) (txn : Nat) (s : Sys) : Pc × Sys :=
  let s1 : Sys :=
    { s with module := { s.module with isInitialized := true },
             committed := s.committed ++ [txn] }
  match entry with
  | Entry.initDatabase => (Pc.returned s1.module.db, s1)
  | _ => (Pc.initialized, s1)

/-- The synchronous start of a call: the test of the flag (lines 10, 56, 72), then either
the immediate `return db` or statement, or the `openDatabaseAsync` of line 13. -/
def start (entry : Entry) (s : Sys) : Pc × Sys :=
  if s.module.isInitialized then
    match entry with
    | Entry.initDatabase => (Pc.returned s.module.db, s)
    | _ => issueStatement entry s
  else (Pc.opening, { s with log := s.log ++ [Op.openDatabase] })

/-- A call suspended at `pc` is resumed with the outcome of the promise it awaits, and
runs to its next `await` or to its end. -/
def resume (entry : Entry) (pc : Pc) (outcome : Except Err Unit) (s : Sys) : Pc × Sys :=
  match pc, outcome with
  | Pc.opening, Except.ok _ =>
    (Pc.pragma s.opened,
      { s with module := { s.module with db := some s.opened },
               opened := s.opened + 1,
               log := s.log ++ [Op.pragma s.opened] })
  | Pc.opening, Except.error e => (Pc.threw e, s)
  | Pc.pragma _, Except.ok _ =>
    match s.module.db with
    | none => (Pc.threw nullError, s)
    | some txn => (Pc.begin txn, s)
  | Pc.pragma _, Except.error e => (Pc.threw e, s)
  | Pc.begin txn, Except.ok _ =>
    match s.module.db with
    | none => (Pc.rollback txn nullError, { s with log := s.log ++ [Op.rollback txn] })
    | some conn =>
      (Pc.createUsers txn conn, { s with log := s.log ++ [Op.createUsers conn] })
  | Pc.begin txn, Except.error e =>
    (Pc.rollback txn e, { s with log := s.log ++ [Op.rollback txn] })
  | Pc.createUsers txn _, Except.ok _ =>
    match s.module.db with
    | none => (Pc.rollback txn nullError, { s with log := s.log ++ [Op.rollback txn] })
    | some conn =>
      (Pc.createJournals txn conn, { s with log := s.log ++ [Op.createJournals conn] })
  | Pc.createUsers txn _, Except.error e =>
    (Pc.rollback txn e, { s with log := s.log ++ [Op.rollback txn] })
  | Pc.createJournals txn _, Except.ok _ =>
    (Pc.commit txn, { s with log := s.log ++ [Op.commit txn] })
  | Pc.createJournals txn _, Except.error e =>
    (Pc.rollback txn e, { s with log := s.log ++ [Op.rollback txn] })
  | Pc.commit txn, Except.ok _ => finishInit entry txn s
  | Pc.commit txn, Except.error e =>
    (Pc.rollback txn e, { s with log := s.log ++ [Op.rollback txn] })
  | Pc.rollback _ e, Except.ok _ => (Pc.threw e, s)
  | Pc.rollback _ _, Except.error e => (Pc.threw e, s)
  | Pc.initialized, _ => issueStatement entry s
  | Pc.statement _, Except.ok _ => (Pc.resolved, s)
  | Pc.statement _, Except.error e => (Pc.threw e, s)
  | Pc.returned db, _ => (Pc.returned db, s)
  | Pc.resolved, _ => (Pc.resolved, s)
  | Pc.threw e, _ => (Pc.threw e, s)

/-- One event. -/
def advance (s : Sys) : Event → Sys
  | Event.call entry =>
    { (start entry s).2 with tasks := s.tasks ++ [{ entry := entry, pc := (start entry s).1 }] }
  | Event.settle task outcome =>
    match s.tasks.get? task with
    | none => s
    | some t =>
      { (resume t.entry t.pc outcome s).2 with
        tasks := s.tasks.set task { entry := t.entry, pc := (resume t.entry t.pc outcome s).1 } }

/-- A sequence of events, from left to right. -/
def runEvents (s : Sys) (events : List Event) : Sys :=
  events.foldl advance s

/-- The call is suspended inside `initDatabase`. -/
def initInFlight : Pc → Bool
  | Pc.opening => true
  | Pc.pragma _ => true
  | Pc.begin _ => true
  | Pc.createUsers _ _ => true
  | Pc.createJournals _ _ => true
  | Pc.commit _ => true
  | Pc.rollback _ _ => true
  | _ => false

/-- The call is suspended after line 13 assigned `db` and before the flag is set. -/
def needsDb : Pc → Bool
  | Pc.pragma _ => true
  | Pc.begin _ => true
  | Pc.createUsers _ _ => true
  | Pc.createJournals _ _ => true
  | Pc.commit _ => true
  | _ => false

/-- The flag is set and no call is suspended inside `initDatabase`. -/
def Quiet (s : Sys) : Prop :=
  s.module.isInitialized = true ∧ ∀ t ∈ s.tasks, initInFlight t.pc = false

/-- What the flag and `db` guarantee whatever calls overlap: a set flag means that a
schema transaction committed and `db` is not `null`, and `db` is a connection that was
opened. -/
def Core (s : Sys) : Prop :=
  (s.module.isInitialized = true → s.committed ≠ [] ∧ s.module.db.isSome = true) ∧
  (∀ c, s.module.db = some c → c < s.opened)

/-- What a call suspended at `pc` relies on: past line 13 `db` is not `null`, and a
statement is issued, and was issued, only with the flag set. -/
def TaskOk (s : Sys) (pc : Pc) : Prop :=
  (needsDb pc = true → s.module.db.isSome = true) ∧
  (∀ c, pc = Pc.statement c → s.module.isInitialized = true) ∧
  (pc = Pc.initialized → s.module.isInitialized = true)

/-- What holds of the module whatever calls overlap. -/
def SysInv (s : Sys) : Prop :=
  Core s ∧ ∀ t ∈ s.tasks, TaskOk s t.pc

/-- The promises that settle during one call of `initDatabase` that runs alone, for what
the runtime does during it: the open, the `PRAGMA`, the `BEGIN`, the two `CREATE TABLE`,
the `COMMIT`, and the `ROLLBACK` after a rejection inside the transaction. -/
def settlements : InitFault → List (Except Err Unit)
  | none =>
    [Except.ok (), Except.ok (), Except.ok (), Except.ok (), Except.ok (), Except.ok ()]
  | some (InitStep.openDatabase, e) => [Except.error e]
  | some (InitStep.pragma, e) => [Except.ok (), Except.error e]
  | some (InitStep.createUsers, e) =>
    [Except.ok (), Except.ok (), Except.ok (), Except.error e, Except.ok ()]
  | some (InitStep.createJournals, e) =>
    [Except.ok (), Except.ok (), Except.ok (), Except.ok (), Except.error e, Except.ok ()]
  | some (InitStep.commit, e) =>
    [Except.ok (), Except.ok (), Except.ok (), Except.ok (), Except.ok (), Except.error e,
     Except.ok ()]

/-- How a call of `initDatabase` ends, for what it returned or threw. -/
def endOf : Except Err (Option Nat) → Pc
  | Except.ok db => Pc.returned db
  | Except.error e => Pc.threw e

/-- Two calls of `initDatabase` A and B are made before anything settles; A runs to its
end and succeeds on connection 0; a third call C is made; then the open of B resolves;
then a fourth call D is made. -/
def overlappingCalls : List Event :=
  [Event.call Entry.initDatabase, Event.call Entry.initDatabase,
   Event.settle 0 (Except.ok ()), Event.settle 0 (Except.ok ()),
   Event.settle 0 (Except.ok ()), Event.settle 0 (Except.ok ()),
   Event.settle 0 (Except.ok ()), Event.settle 0 (Except.ok ()),
   Event.call Entry.initDatabase,
   Event.settle 1 (Except.ok ()),
   Event.call Entry.initDatabase]

/-- Two calls of `initDatabase` A and B are made before anything settles; A runs to its
end and succeeds on connection 0; then the open of B resolves. -/
def lateOpen : List Event :=
  [Event.call Entry.initDatabase, Event.call Entry.initDatabase,
   Event.settle 0 (Except.ok ()), Event.settle 0 (Except.ok ()),
   Event.settle 0 (Except.ok ()), Event.settle 0 (Except.ok ()),
   Event.settle 0 (Except.ok ()), Event.settle 0 (Except.ok ()),
   Event.settle 1 (Except.ok ())]

/-! # Theorems -/

/-! ## Statistics -/

theorem getStats_average (journals : List Journal) :
    getKey (getStats journals) "AverageRating"
      = some (StatValue.text (averageRating journals)) := by
  simp [getStats, categories, setKey, getKey]

/-- C1: for every sequence of entries `getStats` holds, under each of the four category
keys, the number of entries with that category, under `Total` the length of the sequence,
and has no key `All` (its keys are exactly the four categories, `Total` and
`AverageRating`). -/
theorem getStats_counts (journals : List Journal) :
    (∀ c ∈ ["Breakfast", "Lunch", "Dinner", "Snacks"],
      getKey (getStats journals) c
        = some (StatValue.count (journals.countP (fun e => decide (e.category = c)))))
    ∧ getKey (getStats journals) "Total" = some (StatValue.count journals.length)
    ∧ getKey (getStats journals) "All" = none
    ∧ (getStats journals).map Prod.fst
        = ["Breakfast", "Lunch", "Dinner", "Snacks", "Total", "AverageRating"] := by
  refine ⟨?_, ?_, ?_, ?_⟩
  · intro c hc
    simp only [List.mem_cons, List.mem_singleton, List.not_mem_nil, or_false] at hc
    rcases hc with rfl | rfl | rfl | rfl <;>
      simp [getStats, categories, setKey, getKey, List.countP_eq_length_filter]
  · simp [getStats, categories, setKey, getKey]
  · simp [getStats, categories, setKey, getKey]
  · simp [getStats, categories, setKey]

/-! ### The rounded quotient -/

theorem log2Aux_spec : ∀ (fuel n : Nat), n ≤ fuel → 0 < n →
    2 ^ log2Aux fuel n ≤ n ∧ n < 2 ^ (log2Aux fuel n + 1) := by
  intro fuel
  induction fuel with
  | zero => intro n h1 h2; omega
  | succ f ih =>
    intro n h1 h2
    unfold log2Aux
    split
    · constructor <;> simp <;> omega
    · have hn : 2 ≤ n := by omega
      have h3 : n / 2 ≤ f := by omega
      have h4 : 0 < n / 2 := by omega
      obtain ⟨l1, l2⟩ := ih (n / 2) h3 h4
      constructor
      · rw [pow_succ]; omega
      · rw [pow_succ]; omega

theorem ilog2_spec (n : Nat) (h : 0 < n) : 2 ^ ilog2 n ≤ n ∧ n < 2 ^ (ilog2 n + 1) :=
  log2Aux_spec n n le_rfl h

/-- The rounded quotient is within a relative error of `2^-53` of `a / b`. -/
theorem roundDiv_error (a b : Nat) (ha : 0 < a) (hb : 0 < b) :
    0 < (roundDiv a b).2 ∧
    (roundDiv a b).1 * b * 2 ^ 53 ≤ a * (roundDiv a b).2 * (2 ^ 53 + 1) ∧
    a * (roundDiv a b).2 * (2 ^ 53 - 1) ≤ (roundDiv a b).1 * b * 2 ^ 53 := by
  obtain ⟨hb1, hb2⟩ := ilog2_spec b hb
  -- the scaled quotient and its remainder
  have hk : (2:Nat) ^ (54 + ilog2 b) = 2 ^ 53 * 2 ^ (ilog2 b + 1) := by
    rw [← pow_add]; congr 1; omega
  have hdm := Nat.div_add_mod (a * 2 ^ (54 + ilog2 b)) b
  have hr := Nat.mod_lt (a * 2 ^ (54 + ilog2 b)) hb
  generalize hq : a * 2 ^ (54 + ilog2 b) / b = q at hdm
  generalize hrr : a * 2 ^ (54 + ilog2 b) % b = r at hdm hr
  have hD : 0 < 2 ^ (54 + ilog2 b) := Nat.pow_pos (by norm_num)
  -- q ≥ 2^53
  have hq53 : 2 ^ 53 ≤ q := by
    by_contra hlt
    push_neg at hlt
    have h1 : b * q + r < b * 2 ^ 53 := by
      have : b * (q + 1) ≤ b * 2 ^ 53 := Nat.mul_le_mul_left b hlt
      rw [Nat.mul_add, Nat.mul_one] at this
      omega
    have h2 : b * 2 ^ 53 < 2 ^ (ilog2 b + 1) * 2 ^ 53 := by
      exact Nat.mul_lt_mul_of_pos_right hb2 (Nat.pow_pos (by norm_num))
    have h3 : 1 * 2 ^ (54 + ilog2 b) ≤ a * 2 ^ (54 + ilog2 b) :=
      Nat.mul_le_mul_right _ ha
    rw [hk] at h3
    rw [hk] at hdm
    rw [Nat.mul_comm (2 ^ (ilog2 b + 1)) (2 ^ 53)] at h2
    omega
  have hqpos : 0 < q := lt_of_lt_of_le (Nat.pow_pos (by norm_num)) hq53
  obtain ⟨hl1, hl2⟩ := ilog2_spec q hqpos
  have hL : 53 ≤ ilog2 q := by
    by_contra hlt
    push_neg at hlt
    have : 2 ^ (ilog2 q + 1) ≤ 2 ^ 53 := Nat.pow_le_pow_right (by norm_num) hlt
    omega
  obtain ⟨s, hs⟩ : ∃ s, ilog2 q = s + 53 := ⟨ilog2 q - 53, by omega⟩
  have hs1 : ilog2 q - 52 = s + 1 := by omega
  have hpow : (2:Nat) ^ (s + 1) = 2 * 2 ^ s := by rw [pow_succ]; ring
  have hpowL : (2:Nat) ^ ilog2 q = 2 ^ 53 * 2 ^ s := by rw [hs, pow_add]; ring
  have hhalf : 0 < 2 ^ s := Nat.pow_pos (by norm_num)
  have hdm2 := Nat.div_add_mod q (2 ^ (s + 1))
  have hrem := Nat.mod_lt q (show 0 < 2 ^ (s + 1) from Nat.pow_pos (by norm_num))
  simp only [roundDiv, hq, hrr, hs1, Nat.add_sub_cancel]
  generalize hm0 : q / 2 ^ (s + 1) = m0 at hdm2
  generalize hre : q % 2 ^ (s + 1) = rem at hdm2 hrem
  rw [hpow] at hdm2 hrem ⊢
  generalize (2:Nat) ^ s = half at *
  generalize (2:Nat) ^ (54 + ilog2 b) = D at *
  refine ⟨hD, ?_⟩
  -- m0 ≥ 2^52
  have hm52 : 2 ^ 52 ≤ m0 := by
    by_contra hlt
    push_neg at hlt
    have : 2 * half * (m0 + 1) ≤ 2 * half * 2 ^ 52 := Nat.mul_le_mul_left _ hlt
    rw [Nat.mul_add, Nat.mul_one] at this
    rw [hpowL] at hl1
    have e : 2 * half * 2 ^ 52 = 2 ^ 53 * half := by ring
    omega
  -- everything in terms of the atoms half*b*m0, half*b and rem*b
  have hA : 2 ^ 52 * (half * b) ≤ half * b * m0 := by
    rw [Nat.mul_comm (half * b) m0]; exact Nat.mul_le_mul_right _ hm52
  have hZ : rem * b + b ≤ 2 * (half * b) := by
    have : (rem + 1) * b ≤ 2 * half * b := Nat.mul_le_mul_right b hrem
    rw [Nat.add_mul, Nat.one_mul, Nat.mul_assoc] at this
    exact this
  have haD : a * D = 2 * (half * b * m0) + rem * b + r := by
    rw [← hdm, ← hdm2]; ring
  have e53 : (2:Nat) ^ 53 - 1 = 9007199254740991 := by norm_num
  have e53b : (2:Nat) ^ 53 = 9007199254740992 := by norm_num
  have e52 : (2:Nat) ^ 52 = 4503599627370496 := by norm_num
  rw [e52] at hA
  by_cases hup : (decide (half < rem) || (decide (rem = half) && (decide (r ≠ 0) || decide (m0 % 2 = 1)))) = true
  · rw [if_pos hup]
    have hge : half ≤ rem := by
      simp only [Bool.or_eq_true, Bool.and_eq_true, decide_eq_true_eq] at hup
      rcases hup with h | ⟨h, _⟩ <;> omega
    have hX : half * b ≤ rem * b := Nat.mul_le_mul_right b hge
    have eN : (m0 + 1) * (2 * half) * b = 2 * (half * b * m0) + 2 * (half * b) := by ring
    rw [eN, haD, e53, e53b]
    generalize half * b * m0 = A at *
    generalize half * b = X at *
    generalize rem * b = Z at *
    constructor <;> omega
  · rw [if_neg hup]
    have hle : rem * b + r ≤ half * b := by
      simp only [Bool.or_eq_true, Bool.and_eq_true, decide_eq_true_eq, not_or, not_and,
        not_lt] at hup
      obtain ⟨h1, h2⟩ := hup
      rcases Nat.lt_or_ge rem half with h | h
      · have : (rem + 1) * b ≤ half * b := Nat.mul_le_mul_right b h
        rw [Nat.add_mul, Nat.one_mul] at this
        omega
      · have he : rem = half := le_antisymm h1 h
        have := h2 he
        have hr0 : r = 0 := by
          by_contra hne
          exact this.1 hne
        rw [he, hr0]
        omega
    have eN : m0 * (2 * half) * b = 2 * (half * b * m0) := by ring
    rw [eN, haD, e53, e53b]
    generalize half * b * m0 = A at *
    generalize half * b = X at *
    generalize rem * b = Z at *
    constructor <;> omega

/-- Rounding the rounded quotient to tenths gives a nearest tenth of the exact quotient,
as long as `20 * a` stays below `2^53`. -/
theorem nearestTenths_close (a b N D : Nat) (hb : 0 < b) (hD : 0 < D)
    (h1 : N * b * 2 ^ 53 ≤ a * D * (2 ^ 53 + 1))
    (h2 : a * D * (2 ^ 53 - 1) ≤ N * b * 2 ^ 53) (ha : 20 * a < 2 ^ 53) :
    20 * a ≤ 2 * (nearestTenths N D * b) + b ∧ 2 * (nearestTenths N D * b) ≤ 20 * a + b := by
  have hlo : 2 * D * nearestTenths N D ≤ 20 * N + D := Nat.mul_div_le _ _
  have hhi : 20 * N + D < 2 * D * (nearestTenths N D + 1) :=
    Nat.lt_mul_div_succ _ (by omega)
  generalize nearestTenths N D = n at *
  have hlob : 2 * (n * b * D) ≤ 20 * (N * b) + b * D := by
    have := Nat.mul_le_mul_right b hlo
    calc 2 * (n * b * D) = 2 * D * n * b := by ring
      _ ≤ (20 * N + D) * b := this
      _ = 20 * (N * b) + b * D := by ring
  have hhib : 20 * (N * b) + b * D < 2 * (n * b * D) + 2 * (b * D) := by
    have := Nat.mul_lt_mul_of_pos_right hhi hb
    calc 20 * (N * b) + b * D = (20 * N + D) * b := by ring
      _ < 2 * D * (n + 1) * b := this
      _ = 2 * (n * b * D) + 2 * (b * D) := by ring
  have haD : 20 * (a * D) < 2 ^ 53 * D := by
    have := Nat.mul_lt_mul_of_pos_right ha hD
    calc 20 * (a * D) = 20 * a * D := by ring
      _ < 2 ^ 53 * D := this
  have e53 : (2:Nat) ^ 53 - 1 = 9007199254740991 := by norm_num
  have e53b : (2:Nat) ^ 53 = 9007199254740992 := by norm_num
  rw [e53b] at h1 haD
  rw [e53, e53b] at h2
  constructor
  · by_contra hc
    push_neg at hc
    have : (2 * (n * b) + b + 1) * D ≤ 20 * a * D := Nat.mul_le_mul_right D hc
    have e1 : (2 * (n * b) + b + 1) * D = 2 * (n * b * D) + b * D + D := by ring
    have e2 : 20 * a * D = 20 * (a * D) := by ring
    rw [e1, e2] at this
    generalize n * b * D = R at *
    generalize b * D = W at *
    generalize a * D = Q at *
    generalize N * b = P at *
    omega
  · by_contra hc
    push_neg at hc
    have : (20 * a + b + 1) * D ≤ 2 * (n * b) * D := Nat.mul_le_mul_right D hc
    have e1 : (20 * a + b + 1) * D = 20 * (a * D) + b * D + D := by ring
    have e2 : 2 * (n * b) * D = 2 * (n * b * D) := by ring
    rw [e1, e2] at this
    generalize n * b * D = R at *
    generalize b * D = W at *
    generalize a * D = Q at *
    generalize N * b = P at *
    omega

theorem totalRating_eq_sum (journals : List Journal) :
    totalRating journals = (journals.map (fun j => ratingOr3 j.rating)).sum := by
  have h : ∀ (l : List Journal) (acc : Int),
      l.foldl (fun sum journal => sum + ratingOr3 journal.rating) acc
        = acc + (l.map (fun j => ratingOr3 j.rating)).sum := by
    intro l
    induction l with
    | nil => intro acc; simp
    | cons x xs ih => intro acc; simp [List.foldl_cons, ih, add_assoc]
  simpa [totalRating] using h journals 0

theorem natAbs_sum_le (l : List Int) : l.sum.natAbs ≤ (l.map Int.natAbs).sum := by
  induction l with
  | nil => simp
  | cons x xs ih =>
    simp only [List.sum_cons, List.map_cons]
    exact le_trans (Int.natAbs_add_le x xs.sum) (Nat.add_le_add_left ih _)

theorem ratingOr3_ne_zero (r : Option Int) : ratingOr3 r ≠ 0 := by
  cases r with
  | none => decide
  | some v =>
    simp only [ratingOr3]
    split
    · decide
    · assumption

/-- Within the safe range the length itself is an exactly representable integer. -/
theorem length_lt_of_safeRatings (journals : List Journal) (h : SafeRatings journals) :
    20 * journals.length < 2 ^ 53 := by
  have hle : journals.length ≤ (journals.map (fun j => (ratingOr3 j.rating).natAbs)).sum := by
    induction journals with
    | nil => simp
    | cons x xs ih =>
      have h1 : 1 ≤ (ratingOr3 x.rating).natAbs :=
        Int.natAbs_pos.mpr (ratingOr3_ne_zero x.rating)
      have h2 := ih (by unfold SafeRatings at h ⊢; simp only [List.map_cons, List.sum_cons] at h; omega)
      simp only [List.length_cons, List.map_cons, List.sum_cons]
      omega
  unfold SafeRatings at h
  omega

/-- The average of a non-empty list is a nearest tenth of the mean of the `rating || 3`
operands, with the sign of their sum in front. -/
theorem averageRating_nearest (journals : List Journal) (hne : journals ≠ [])
    (hsafe : SafeRatings journals) :
    IsMeanToOneDecimal ratingOr3 journals (averageRating journals) := by
  have hlen : journals.length ≠ 0 := by
    simpa [List.length_eq_zero] using hne
  have hsum := totalRating_eq_sum journals
  have hab : 20 * (totalRating journals).natAbs < 2 ^ 53 := by
    have h1 := natAbs_sum_le (journals.map (fun j => ratingOr3 j.rating))
    rw [← hsum, List.map_map] at h1
    unfold SafeRatings at hsafe
    have : (List.map (Int.natAbs ∘ fun j => ratingOr3 j.rating) journals)
        = List.map (fun j => (ratingOr3 j.rating).natAbs) journals := rfl
    rw [this] at h1
    omega
  unfold IsMeanToOneDecimal
  rw [← hsum]
  simp only [averageRating, if_pos hlen, numDiv, if_neg hlen]
  by_cases ht : totalRating journals = 0
  · refine ⟨0, ?_, ?_⟩
    · simp [ht, toFixed1, nearestTenths]
    · simp [ht]
  · rw [if_neg ht]
    have ha : 0 < (totalRating journals).natAbs := Int.natAbs_pos.mpr ht
    have hb : 0 < journals.length := Nat.pos_of_ne_zero hlen
    obtain ⟨hD, e1, e2⟩ := roundDiv_error _ _ ha hb
    obtain ⟨c1, c2⟩ := nearestTenths_close _ _ _ _ hb hD e1 e2 hab
    refine ⟨nearestTenths (roundDiv (totalRating journals).natAbs journals.length).1
      (roundDiv (totalRating journals).natAbs journals.length).2, ?_, ?_⟩
    · by_cases hneg : totalRating journals < 0 <;> simp [toFixed1, hneg]
    · generalize nearestTenths (roundDiv (totalRating journals).natAbs journals.length).1
        (roundDiv (totalRating journals).natAbs journals.length).2 = n at *
      rw [Int.abs_eq_natAbs (totalRating journals)]
      generalize (totalRating journals).natAbs = a at *
      have h1 : (2 * (n * journals.length) : Int) ≤ 20 * a + journals.length := by
        exact_mod_cast c2
      have h2 : (20 * a : Int) ≤ 2 * (n * journals.length) + journals.length := by
        exact_mod_cast c1
      rcases abs_cases (10 * (a : Int) - n * journals.length) with ⟨h, _⟩ | ⟨h, _⟩ <;>
        rw [h] <;> linarith

/-- C2 (as stated, refuted): one entry whose rating is 0 is not missing a rating, yet it
contributes 3: the average is "3.0", which is not the mean 0 of the ratings to one
decimal. -/
theorem averageRating_zero_rating_counterexample :
    averageRating zeroRated = "3.0"
    ∧ ¬ IsMeanToOneDecimal ratingOrDefault
        zeroRated
        (averageRating zeroRated) := by
  have hv : averageRating zeroRated = "3.0" := by decide
  have hs : (zeroRated.map (fun j => ratingOrDefault j.rating)).sum = 0 := by decide
  have hl : zeroRated.length = 1 := rfl
  refine ⟨hv, ?_⟩
  rw [hv]
  rintro ⟨n, h1, h2⟩
  rw [hs] at h1 h2
  rw [hl] at h2
  have hn : n = 0 := by
    rcases n with _ | n
    · rfl
    · exfalso
      simp only [abs_zero, mul_zero, zero_sub, abs_neg, Nat.cast_one, mul_one] at h2
      rw [abs_of_nonneg (by positivity)] at h2
      push_cast at h2
      linarith
  subst hn
  revert h1
  decide

/-- C2 (amended): for a non-empty sequence of entries whose ratings stay in the exact
integer range, the `AverageRating` of `getStats` is the mean of the operands
`rating || 3` (a missing rating and a rating 0 both count 3) rounded to one decimal: the
sign of the sum followed by a nearest tenth of the mean's magnitude. -/
theorem getStats_averageRating (journals : List Journal) (hne : journals ≠ [])
    (hsafe : SafeRatings journals) :
    ∃ text, getKey (getStats journals) "AverageRating" = some (StatValue.text text)
      ∧ IsMeanToOneDecimal ratingOr3 journals text :=
  ⟨averageRating journals, getStats_average journals,
    averageRating_nearest journals hne hsafe⟩

/-- The ratings 5, 3, 4 of the specification's example give "4.0". -/
theorem getStats_averageRating_witness :
    getKey (getStats
      sampleEntries)
      "AverageRating" = some (StatValue.text "4.0")
    ∧ ∃ text, getKey (getStats
      sampleEntries)
      "AverageRating" = some (StatValue.text text)
      ∧ IsMeanToOneDecimal ratingOr3
      sampleEntries text :=
  ⟨by decide, getStats_averageRating _ (by decide) (by decide)⟩

/-- On an exact half the direction follows the binary quotient: the mean 23/20 = 1.15 is
written "1.1", the mean 25/20 = 1.25 is written "1.3". -/
theorem averageRating_halfway :
    averageRating (twentyEntries 4) = "1.1" ∧ averageRating (twentyEntries 6) = "1.3" := by
  constructor <;> decide

theorem toFixed1_mem_dot (neg : Bool) (num den : Nat) :
    '.' ∈ (toFixed1 (Num.fin neg num den)).data := by
  simp [toFixed1, oneDecimal, String.data_append]

theorem toFixed1_ne_sentinel (x : Num) : toFixed1 x ≠ "N/A" := by
  cases x with
  | nan => decide
  | inf neg => cases neg <;> decide
  | fin neg num den =>
    intro h
    have := toFixed1_mem_dot neg num den
    rw [h] at this
    revert this
    decide

/-- C3: for the empty sequence `getStats` gives `Total` 0, every category count 0 and the
average "N/A"; that is not the text "NaN" which dividing the zero sum by the zero length
would give, and the sentinel is the average of the empty sequence only. -/
theorem getStats_empty :
    getKey (getStats []) "Total" = some (StatValue.count 0)
    ∧ (∀ c ∈ ["Breakfast", "Lunch", "Dinner", "Snacks"],
        getKey (getStats []) c = some (StatValue.count 0))
    ∧ getKey (getStats []) "AverageRating" = some (StatValue.text "N/A")
    ∧ toFixed1 (numDiv (totalRating []) ([] : List Journal).length) = "NaN"
    ∧ ∀ journals : List Journal,
        getKey (getStats journals) "AverageRating" = some (StatValue.text "N/A")
          ↔ journals = [] := by
  refine ⟨by decide, by decide, by decide, by decide, ?_⟩
  intro journals
  rw [getStats_average]
  constructor
  · intro h
    by_contra hne
    have hlen : journals.length ≠ 0 := by simpa [List.length_eq_zero] using hne
    simp only [averageRating, if_pos hlen, Option.some.injEq, StatValue.text.injEq] at h
    exact toFixed1_ne_sentinel _ h
  · rintro rfl
    decide

/-! ## Filtering -/

theorem includes_iff (hay needle : String) :
    includes hay needle = true ↔ needle.data <:+: hay.data := by
  simp only [includes, List.any_eq_true, List.mem_tails, List.isPrefixOf_iff_prefix]
  rw [List.infix_iff_prefix_suffix]
  constructor
  · rintro ⟨t, h1, h2⟩; exact ⟨t, h2, h1⟩
  · rintro ⟨t, h1, h2⟩; exact ⟨t, h2, h1⟩

/-- C4: `filteredJournals` is the filter of the specification: it keeps, in input order,
exactly the entries whose category passes (the sentinel "All" or equality) and whose
lower-cased description contains the lower-cased search text (or the text is empty); with
"All" and the empty text it is the input itself. -/
theorem filteredJournals_spec (toLowerCase : String → String) (journals : List Journal)
    (category searchQuery : String) :
    filteredJournals toLowerCase journals category searchQuery
      = filterEntriesSpec toLowerCase journals category searchQuery
    ∧ List.Sublist (filteredJournals toLowerCase journals category searchQuery) journals
    ∧ (∀ e, e ∈ filteredJournals toLowerCase journals category searchQuery ↔
        e ∈ journals ∧ (category = "All" ∨ e.category = category) ∧
          (searchQuery = "" ∨
            (toLowerCase searchQuery).data <:+: (toLowerCase e.description).data))
    ∧ filteredJournals toLowerCase journals "All" "" = journals := by
  have heq : filteredJournals toLowerCase journals category searchQuery
      = filterEntriesSpec toLowerCase journals category searchQuery := by
    unfold filteredJournals filterEntriesSpec
    apply List.filter_congr
    intro e _
    by_cases hq : searchQuery = ""
    · simp [hq]
    · rw [Bool.eq_iff_iff]
      simp [hq, includes_iff]
  refine ⟨heq, ?_, ?_, ?_⟩
  · exact List.filter_sublist _
  · intro e
    rw [heq]
    simp [filterEntriesSpec, List.mem_filter]
  · simp [filteredJournals]

/-! ## The store -/

theorem le_maxId (rows : List Journal) : ∀ r ∈ rows, r.id ≤ maxId rows := by
  have h : ∀ (l : List Journal) (m : Nat),
      m ≤ l.foldl (fun m r => max m r.id) m ∧
      ∀ r ∈ l, r.id ≤ l.foldl (fun m r => max m r.id) m := by
    intro l
    induction l with
    | nil => intro m; simp
    | cons x xs ih =>
      intro m
      simp only [List.foldl_cons, List.mem_cons, forall_eq_or_imp]
      obtain ⟨h1, h2⟩ := ih (max m x.id)
      exact ⟨le_trans (le_max_left _ _) h1, le_trans (le_max_right _ _) h1, h2⟩
  exact (h rows 0).2

theorem mem_listEntries (t : Table) (u : Nat) (r : Journal) :
    r ∈ listEntries t u ↔ r ∈ t.rows ∧ r.userId = u := by
  simp [listEntries, List.mem_filter]

theorem listEntries_perm (t : Table) (u : Nat) :
    (listEntries t u).Perm (t.rows.filter (fun r => decide (r.userId = u))) :=
  List.perm_insertionSort _ _

theorem listEntries_sorted (t : Table) (u : Nat) :
    (listEntries t u).Sorted (fun a b => b.date ≤ a.date) := by
  haveI : IsTotal Journal (fun a b => b.date.data ≤ a.date.data) :=
    ⟨fun a b => le_total _ _⟩
  haveI : IsTrans Journal (fun a b => b.date.data ≤ a.date.data) :=
    ⟨fun a b c h1 h2 => le_trans h2 h1⟩
  have h := List.sorted_insertionSort (fun a b : Journal => b.date.data ≤ a.date.data)
    (t.rows.filter (fun r => decide (r.userId = u)))
  exact List.Pairwise.imp (fun {a b} hab => String.le_iff_toList_le.mpr hab) h

/-- C9: the query of `loadJournals` returns exactly the rows of the table whose `userId`
is the given one (a permutation of them, so never a row of another user and nothing when
the user owns none), in non-increasing order of the `date` string; `loadJournals` stores
that result in `journals`. -/
theorem listEntries_spec (t : Table) (u : Nat) :
    (listEntries t u).Perm (t.rows.filter (fun r => decide (r.userId = u)))
    ∧ (∀ r, r ∈ listEntries t u ↔ r ∈ t.rows ∧ r.userId = u)
    ∧ (listEntries t u).Sorted (fun a b => b.date ≤ a.date)
    ∧ ((∀ r ∈ t.rows, r.userId ≠ u) → listEntries t u = [])
    ∧ (∀ s : Screen, u ≠ 0 →
        (loadJournals { table := t, screen := s } (some u) true).screen.journals
          = listEntries t u) := by
  refine ⟨listEntries_perm t u, mem_listEntries t u, listEntries_sorted t u, ?_, ?_⟩
  · intro h
    apply List.eq_nil_iff_forall_not_mem.mpr
    intro r hr
    obtain ⟨h1, h2⟩ := (mem_listEntries t u r).mp hr
    exact h r h1 h2
  · intro s hu
    simp [loadJournals, hu]

theorem countP_id_le_one (rows : List Journal) (id : Nat)
    (hu : (rows.map (fun r => r.id)).Nodup) :
    rows.countP (fun r => decide (r.id = id)) ≤ 1 := by
  have h := List.nodup_iff_count_le_one.mp hu id
  rw [List.count_eq_countP, List.countP_map] at h
  have e : ((fun x => x == id) ∘ fun r : Journal => r.id) = fun r => decide (r.id = id) := by
    funext r
    simp only [Function.comp, beq_iff_eq, Bool.decide_eq_true]
    rw [Bool.eq_iff_iff]
    simp
  rw [e] at h
  exact h

theorem saveStmt_editing (s : Screen) (userId : Option Nat) (now : String) (id : Nat)
    (hed : s.editingId = some id) (hid : id ≠ 0) (stmt : Stmt)
    (h : saveStmt s userId now = some stmt) :
    ∃ image, s.image = some image ∧
      stmt = Stmt.update image (trim s.description) s.category s.mealRating id := by
  unfold saveStmt at h
  cases himg : s.image with
  | none => simp [himg] at h
  | some image =>
    refine ⟨image, rfl, ?_⟩
    simp only [himg] at h
    split at h
    · simp at h
    · cases userId with
      | none => simp at h
      | some uid =>
        simp only [hed] at h
        split at h
        · simp at h
        · simp only [ne_eq, hid, not_false_eq_true, if_true, Option.some.injEq] at h
          exact h.symm

/-- C7: the `UPDATE` of `saveJournal` keeps the number of rows, their order and the
`AUTOINCREMENT` counter; every row keeps its `id`, `userId` and `date`; a row whose `id`
is not the edited one is unchanged and a row with that `id` gets the four bound values;
with unique ids at most one row has that `id`, and when none has it the table is exactly
as before.  While an entry is being edited the statement `saveJournal` issues is this
`UPDATE`, bound to `editingId`. -/
theorem update_frame (t : Table) (image description category : String) (rating : Int)
    (id : Nat) (hu : (t.rows.map (fun r => r.id)).Nodup) :
    (exec t (Stmt.update image description category rating id)).rows.length = t.rows.length
    ∧ (exec t (Stmt.update image description category rating id)).seq = t.seq
    ∧ (∀ (i : Nat) (r : Journal), t.rows[i]? = some r →
        (exec t (Stmt.update image description category rating id)).rows[i]?
          = some (if r.id = id then
                    { r with image := image, description := description,
                             category := category, rating := some rating }
                  else r))
    ∧ (∀ (i : Nat) (r r' : Journal), t.rows[i]? = some r →
        (exec t (Stmt.update image description category rating id)).rows[i]? = some r' →
        r'.id = r.id ∧ r'.userId = r.userId ∧ r'.date = r.date ∧ (r.id ≠ id → r' = r))
    ∧ t.rows.countP (fun r => decide (r.id = id)) ≤ 1
    ∧ ((∀ r ∈ t.rows, r.id ≠ id) →
        exec t (Stmt.update image description category rating id) = t)
    ∧ (∀ (s : Screen) (userId : Option Nat) (now : String) (stmt : Stmt),
        s.editingId = some id → id ≠ 0 → saveStmt s userId now = some stmt →
        ∃ img, s.image = some img ∧
          stmt = Stmt.update img (trim s.description) s.category s.mealRating id) := by
  have hget : ∀ (i : Nat) (r : Journal), t.rows[i]? = some r →
      (exec t (Stmt.update image description category rating id)).rows[i]?
        = some (if r.id = id then
                  { r with image := image, description := description,
                           category := category, rating := some rating }
                else r) := by
    intro i r h
    simp [exec, List.getElem?_map, h]
  refine ⟨by simp [exec], rfl, hget, ?_, countP_id_le_one t.rows id hu, ?_, ?_⟩
  · intro i r r' h h'
    rw [hget i r h] at h'
    injection h' with h'
    subst h'
    by_cases hid : r.id = id
    · simp [hid]
    · simp [hid]
  · intro h
    have : t.rows.map (fun r =>
        if r.id = id then
          { r with image := image, description := description, category := category,
                   rating := some rating }
        else r) = t.rows := by
      conv_rhs => rw [← List.map_id t.rows]
      apply List.map_congr_left
      intro r hr
      simp [h r hr]
    simp only [exec, this]
  · intro s userId now stmt hed hid h
    exact saveStmt_editing s userId now id hed hid stmt h

/-- The update of row 4 of the sample table. -/
theorem update_frame_witness :
    (sampleTable.rows.map (fun r => r.id)).Nodup
    ∧ (exec sampleTable (Stmt.update "img2" "Oatmeal v2" "Breakfast" 5 4)).rows.map
        (fun r => (r.id, r.userId, r.date, r.description, r.rating))
      = [(1, 1, "2024-01-01T08:00:00.000Z", "Eggs", some 5),
         (2, 2, "2024-01-02T08:00:00.000Z", "Toast", none),
         (4, 1, "2024-01-02T12:00:00.000Z", "Oatmeal v2", some 5)]
    ∧ (exec sampleTable (Stmt.update "img2" "Oatmeal v2" "Breakfast" 5 4)).rows.length
        = sampleTable.rows.length :=
  ⟨by decide, by decide,
    (update_frame sampleTable "img2" "Oatmeal v2" "Breakfast" 5 4 (by decide)).1⟩

/-- C8: the `DELETE` of `deleteJournal` keeps exactly the rows whose `id` is not the given
one, in their order; with unique ids a present `id` loses exactly one row; afterwards no
listing of any user contains the `id`, and every listing is the old one without it;
deleting an absent `id` leaves the table as it was, so a second delete changes nothing.
A confirmed `deleteJournal` whose statement resolves leaves exactly that table, and the
`journals` it then loads are the listing of that table, without the `id`; a cancelled one,
or one whose statement rejects, leaves the store and the screen as they were; and a second
`deleteJournal` of the same `id` leaves the table as the first left it. -/
theorem delete_spec (t : Table) (s : Screen) (id : Nat)
    (hu : (t.rows.map (fun r => r.id)).Nodup) :
    (∀ r, r ∈ (exec t (Stmt.delete id)).rows ↔ r ∈ t.rows ∧ r.id ≠ id)
    ∧ List.Sublist (exec t (Stmt.delete id)).rows t.rows
    ∧ (exec t (Stmt.delete id)).seq = t.seq
    ∧ (id ∈ t.rows.map (fun r => r.id) →
        (exec t (Stmt.delete id)).rows.length + 1 = t.rows.length)
    ∧ (∀ u, id ∉ (listEntries (exec t (Stmt.delete id)) u).map (fun r => r.id))
    ∧ (∀ u, (listEntries (exec t (Stmt.delete id)) u).Perm
        ((listEntries t u).filter (fun r => decide (r.id ≠ id))))
    ∧ ((∀ r ∈ t.rows, r.id ≠ id) → exec t (Stmt.delete id) = t)
    ∧ exec (exec t (Stmt.delete id)) (Stmt.delete id) = exec t (Stmt.delete id)
    ∧ (∀ userId loadOk,
        (deleteJournal { table := t, screen := s } userId id true true loadOk).table
          = exec t (Stmt.delete id))
    ∧ (∀ u, u ≠ 0 →
        (deleteJournal { table := t, screen := s } (some u) id true true true).screen.journals
          = listEntries (exec t (Stmt.delete id)) u
        ∧ id ∉ (deleteJournal { table := t, screen := s } (some u) id true true
            true).screen.journals.map (fun r => r.id))
    ∧ (∀ userId execOk loadOk,
        deleteJournal { table := t, screen := s } userId id false execOk loadOk
          = { table := t, screen := s }
        ∧ deleteJournal { table := t, screen := s } userId id true false loadOk
          = { table := t, screen := s })
    ∧ (∀ userId loadOk again,
        (deleteJournal (deleteJournal { table := t, screen := s } userId id true true loadOk)
          userId id true true again).table
          = (deleteJournal { table := t, screen := s } userId id true true loadOk).table) := by
  have hmem : ∀ r, r ∈ (exec t (Stmt.delete id)).rows ↔ r ∈ t.rows ∧ r.id ≠ id := by
    intro r
    simp [exec, List.mem_filter]
  have hnot : ∀ u, id ∉ (listEntries (exec t (Stmt.delete id)) u).map (fun r => r.id) := by
    intro u hin
    simp only [List.mem_map] at hin
    obtain ⟨r, hr, hrid⟩ := hin
    have := (mem_listEntries _ u r).mp hr
    exact ((hmem r).mp this.1).2 hrid
  have hidem : exec (exec t (Stmt.delete id)) (Stmt.delete id) = exec t (Stmt.delete id) := by
    simp [exec, List.filter_filter]
  have htable : ∀ (w : World) (userId : Option Nat) (loadOk : Bool),
      (deleteJournal w userId id true true loadOk).table = exec w.table (Stmt.delete id) := by
    intro w userId loadOk
    simp only [deleteJournal, Bool.and_self, if_true, loadJournals]
    cases userId with
    | none => rfl
    | some uid =>
      simp only
      split
      · rfl
      · split <;> rfl
  refine ⟨hmem, by simp only [exec]; exact List.filter_sublist _, rfl, ?_, hnot, ?_, ?_,
    hidem, ?_, ?_, ?_, ?_⟩
  rotate_left 3
  · intro userId loadOk
    exact htable _ userId loadOk
  · intro u hu0
    have hj : (deleteJournal { table := t, screen := s } (some u) id true true
        true).screen.journals = listEntries (exec t (Stmt.delete id)) u := by
      simp [deleteJournal, loadJournals, hu0]
    refine ⟨hj, ?_⟩
    rw [hj]
    exact hnot u
  · intro userId execOk loadOk
    constructor
    · simp [deleteJournal]
    · simp [deleteJournal]
  · intro userId loadOk again
    rw [htable, htable]
    exact hidem
  · intro hin
    have h1 := countP_id_le_one t.rows id hu
    have h2 : 0 < t.rows.countP (fun r => decide (r.id = id)) := by
      rw [List.countP_pos_iff]
      simp only [List.mem_map] at hin
      obtain ⟨r, hr, hrid⟩ := hin
      exact ⟨r, hr, by simp [hrid]⟩
    have h3 := List.length_eq_countP_add_countP (fun r : Journal => decide (r.id = id)) t.rows
    have h4 : (exec t (Stmt.delete id)).rows.length
        = t.rows.countP (fun r => ¬ decide (r.id = id) = true) := by
      simp only [exec, List.countP_eq_length_filter]
      congr 1
      apply List.filter_congr
      intro r _
      simp
    omega
  · intro u
    have h1 := listEntries_perm (exec t (Stmt.delete id)) u
    have h2 := (listEntries_perm t u).filter (fun r => decide (r.id ≠ id))
    refine h1.trans (List.Perm.trans ?_ h2.symm)
    simp only [exec, List.filter_filter]
    apply List.Perm.of_eq
    apply List.filter_congr
    intro r _
    exact Bool.and_comm _ _
  · intro h
    have : t.rows.filter (fun r => decide (r.id ≠ id)) = t.rows := by
      rw [List.filter_eq_self]
      intro r hr
      simp [h r hr]
    simp only [exec, this]

/-- User 1 deletes row 1 of the sample table: rows 2 and 4 stay, the reloaded list shows
row 4 only. -/
theorem delete_spec_witness :
    (sampleTable.rows.map (fun r => r.id)).Nodup
    ∧ (deleteJournal { table := sampleTable, screen := initialScreen } (some 1) 1 true true
        true).table.rows.map (fun r => r.id) = [2, 4]
    ∧ (deleteJournal { table := sampleTable, screen := initialScreen } (some 1) 1 true true
        true).screen.journals.map (fun r => r.id) = [4]
    ∧ (deleteJournal { table := sampleTable, screen := initialScreen } (some 1) 1 true true
        true).table = exec sampleTable (Stmt.delete 1) :=
  ⟨by decide, by decide, by decide,
    (delete_spec sampleTable initialScreen 1 (by decide)).2.2.2.2.2.2.2.2.1 (some 1) true⟩

/-! ## The screen -/

theorem saveStmt_create (s : Screen) (u : Nat) (now img : String) (hu : u ≠ 0)
    (himg : s.image = some img) (hne : img ≠ "") (hdesc : trim s.description ≠ "")
    (hed : s.editingId = none ∨ s.editingId = some 0) :
    saveStmt s (some u) now
      = some (Stmt.insert u img (trim s.description) s.category now s.mealRating) := by
  unfold saveStmt
  rcases hed with hed | hed <;> simp [himg, hne, hdesc, hu, hed]

/-- C10: with a valid form (an image, a description that is not blank), a signed-in user
and no entry being edited, `saveJournal` submits one `INSERT` with the user's id, the
image, the trimmed description, the category, the rating and the current timestamp; the
table becomes the old rows followed by one new row with exactly those values and an `id`
different from every existing one; and the `journals` then loaded are the user's previous
entries plus that row, in non-increasing order of `date`. -/
theorem saveJournal_create (w : World) (u : Nat) (now img : String) (hu : u ≠ 0)
    (himg : w.screen.image = some img) (hne : img ≠ "")
    (hdesc : trim w.screen.description ≠ "")
    (hed : w.screen.editingId = none ∨ w.screen.editingId = some 0) :
    saveStmt w.screen (some u) now
      = some (Stmt.insert u img (trim w.screen.description) w.screen.category now
          w.screen.mealRating)
    ∧ ∃ entry : Journal,
        entry.userId = u ∧ entry.image = img
        ∧ entry.description = trim w.screen.description
        ∧ entry.category = w.screen.category
        ∧ entry.rating = some w.screen.mealRating
        ∧ entry.date = now
        ∧ (∀ r ∈ w.table.rows, r.id ≠ entry.id)
        ∧ (saveJournal w (some u) now true true).table.rows = w.table.rows ++ [entry]
        ∧ (saveJournal w (some u) now true true).screen.journals
            = listEntries (saveJournal w (some u) now true true).table u
        ∧ ((saveJournal w (some u) now true true).screen.journals).Perm
            (entry :: listEntries w.table u)
        ∧ ((saveJournal w (some u) now true true).screen.journals).Sorted
            (fun a b => b.date ≤ a.date) := by
  have hs := saveStmt_create w.screen u now img hu himg hne hdesc hed
  refine ⟨hs, ⟨max w.table.seq (maxId w.table.rows) + 1, u, img, trim w.screen.description,
    now, w.screen.category, some w.screen.mealRating⟩, rfl, rfl, rfl, rfl, rfl, rfl, ?_, ?_⟩
  · intro r hr
    have := le_maxId w.table.rows r hr
    simp only [ne_eq]
    omega
  · have hrows : (saveJournal w (some u) now true true).table.rows = w.table.rows ++
        [⟨max w.table.seq (maxId w.table.rows) + 1, u, img, trim w.screen.description,
          now, w.screen.category, some w.screen.mealRating⟩] := by
      simp [saveJournal, hs, loadJournals, hu, exec]
    have hj : (saveJournal w (some u) now true true).screen.journals
        = listEntries (saveJournal w (some u) now true true).table u := by
      simp [saveJournal, hs, loadJournals, hu, resetForm]
    refine ⟨hrows, hj, ?_, ?_⟩
    · rw [hj]
      refine (listEntries_perm _ u).trans ?_
      rw [hrows, List.filter_append]
      have : List.filter (fun r => decide (r.userId = u))
          [(⟨max w.table.seq (maxId w.table.rows) + 1, u, img, trim w.screen.description,
            now, w.screen.category, some w.screen.mealRating⟩ : Journal)]
          = [⟨max w.table.seq (maxId w.table.rows) + 1, u, img, trim w.screen.description,
            now, w.screen.category, some w.screen.mealRating⟩] := by
        simp
      rw [this]
      refine (List.perm_append_singleton _ _).trans ?_
      exact List.Perm.cons _ (listEntries_perm w.table u).symm
    · rw [hj]
      exact listEntries_sorted _ u

/-- User 1 saves " Oatmeal " over the sample table: row 6 is added and listed first. -/
theorem saveJournal_create_witness :
    (saveJournal sampleWorld (some 1) "2024-03-01T09:30:00.000Z" true true).screen.journals
      = [{ id := 6, userId := 1, image := "img1", description := "Oatmeal",
           date := "2024-03-01T09:30:00.000Z", category := "Breakfast", rating := some 4 },
         { id := 4, userId := 1, image := "c", description := "Soup",
           date := "2024-01-02T12:00:00.000Z", category := "Lunch", rating := some 4 },
         { id := 1, userId := 1, image := "a", description := "Eggs",
           date := "2024-01-01T08:00:00.000Z", category := "Breakfast", rating := some 5 }]
    ∧ saveStmt sampleWorld.screen (some 1) "2024-03-01T09:30:00.000Z"
      = some (Stmt.insert 1 "img1" (trim sampleWorld.screen.description)
          sampleWorld.screen.category "2024-03-01T09:30:00.000Z"
          sampleWorld.screen.mealRating) :=
  ⟨by decide,
    (saveJournal_create sampleWorld 1 "2024-03-01T09:30:00.000Z" "img1" (by decide) rfl
      (by decide) (by decide) (Or.inl rfl)).1⟩

/-- C5 (the code at the failing input): on the initial screen the category cell holds the
filter sentinel; choosing an image and typing a description, then saving, submits an
`INSERT` whose category is "All" and stores a row with that category. -/
theorem saveJournal_persists_sentinel :
    saveStmt (run (some 1) emptyWorld
        [Action.setImage "img1", Action.setDescription "Oatmeal"]).screen
      (some 1) "2024-03-01T09:30:00.000Z"
      = some (Stmt.insert 1 "img1" "Oatmeal" "All" "2024-03-01T09:30:00.000Z" 3)
    ∧ (run (some 1) emptyWorld
        [Action.setImage "img1", Action.setDescription "Oatmeal",
         Action.saveJournal "2024-03-01T09:30:00.000Z" true true]).table.rows
      = [{ id := 1, userId := 1, image := "img1", description := "Oatmeal",
           date := "2024-03-01T09:30:00.000Z", category := "All", rating := some 3 }] := by
  constructor <;> decide

theorem ratingOr3_in_range (o : Option Int) (h : ∀ v, o = some v → 1 ≤ v ∧ v ≤ 5) :
    1 ≤ ratingOr3 o ∧ ratingOr3 o ≤ 5 := by
  cases o with
  | none => decide
  | some v =>
    have := h v rfl
    simp only [ratingOr3]
    split <;> omega

theorem saveStmt_writtenRating (s : Screen) (userId : Option Nat) (now : String) (stmt : Stmt)
    (h : saveStmt s userId now = some stmt) : writtenRating stmt = some s.mealRating := by
  unfold saveStmt at h
  cases himg : s.image with
  | none => simp [himg] at h
  | some image =>
    simp only [himg] at h
    split at h
    · simp at h
    · cases userId with
      | none => simp at h
      | some uid =>
        simp only at h
        split at h
        · simp at h
        · cases hed : s.editingId with
          | none =>
            simp only [hed, Option.some.injEq] at h
            subst h
            rfl
          | some eid =>
            simp only [hed] at h
            split at h <;> (simp only [Option.some.injEq] at h; subst h; rfl)

theorem exec_ratingsInRange (t : Table) (stmt : Stmt) (h : RatingsInRange t.rows)
    (hs : ∀ v, writtenRating stmt = some v → 1 ≤ v ∧ v ≤ 5) :
    RatingsInRange (exec t stmt).rows := by
  cases stmt with
  | update image description category rating id =>
    intro r hr v hv
    simp only [exec, List.mem_map] at hr
    obtain ⟨r0, hr0, rfl⟩ := hr
    by_cases hid : r0.id = id
    · simp only [hid, if_true, Option.some.injEq] at hv
      exact hs v (by simp [writtenRating, hv])
    · simp only [hid, if_false] at hv
      exact h r0 hr0 v hv
  | insert userId image description category date rating =>
    intro r hr v hv
    simp only [exec, List.mem_append, List.mem_singleton] at hr
    rcases hr with hr | rfl
    · exact h r hr v hv
    · simp only [Option.some.injEq] at hv
      exact hs v (by simp [writtenRating, hv])
  | delete id =>
    intro r hr v hv
    simp only [exec, List.mem_filter] at hr
    exact h r hr.1 v hv

theorem loadJournals_invariant (userId : Option Nat) (w : World) (ok : Bool)
    (h : RatingInvariant w) : RatingInvariant (loadJournals w userId ok) := by
  unfold loadJournals
  cases userId with
  | none => exact h
  | some uid =>
    simp only
    split
    · exact h
    · split
      · refine ⟨h.1, ?_, h.2.2⟩
        intro r hr v hv
        exact h.1 r ((mem_listEntries _ _ _).mp hr).1 v hv
      · exact h

theorem step_invariant (userId : Option Nat) (w : World) (a : Action)
    (h : RatingInvariant w) : RatingInvariant (step userId w a) := by
  obtain ⟨ht, hj, hm1, hm2⟩ := h
  cases a with
  | pressStar star =>
    refine ⟨ht, hj, ?_, ?_⟩ <;> simp only [step] <;> omega
  | setDescription text => exact ⟨ht, hj, hm1, hm2⟩
  | setImage uri => exact ⟨ht, hj, hm1, hm2⟩
  | setCategory item => exact ⟨ht, hj, hm1, hm2⟩
  | setSearchQuery text => exact ⟨ht, hj, hm1, hm2⟩
  | resetForm => exact ⟨ht, hj, by simp [step, resetForm], by simp [step, resetForm]⟩
  | startEdit index =>
    simp only [step]
    cases hget : w.screen.journals.get? index with
    | none => exact ⟨ht, hj, hm1, hm2⟩
    | some item =>
      have hmem : item ∈ w.screen.journals := List.get?_mem hget
      exact ⟨ht, hj, ratingOr3_in_range _ (hj item hmem)⟩
  | saveJournal now execOk loadOk =>
    simp only [step, saveJournal]
    cases hs : saveStmt w.screen userId now with
    | none => exact ⟨ht, hj, hm1, hm2⟩
    | some stmt =>
      simp only
      split
      · have hw := saveStmt_writtenRating _ _ _ _ hs
        have hex : RatingInvariant { w with table := exec w.table stmt } := by
          refine ⟨exec_ratingsInRange _ _ ht ?_, hj, hm1, hm2⟩
          intro v hv
          rw [hw] at hv
          injection hv with hv
          subst hv
          exact ⟨hm1, hm2⟩
        have hl := loadJournals_invariant userId _ loadOk hex
        exact ⟨hl.1, hl.2.1, by simp [resetForm], by simp [resetForm]⟩
      · exact ⟨ht, hj, hm1, hm2⟩
  | deleteJournal index confirm execOk loadOk =>
    simp only [step]
    cases hget : w.screen.journals.get? index with
    | none => exact ⟨ht, hj, hm1, hm2⟩
    | some item =>
      simp only [deleteJournal]
      split
      · apply loadJournals_invariant
        refine ⟨exec_ratingsInRange _ _ ht ?_, hj, hm1, hm2⟩
        intro v hv
        simp [writtenRating] at hv
      · exact ⟨ht, hj, hm1, hm2⟩
  | loadJournals ok => exact loadJournals_invariant userId w ok ⟨ht, hj, hm1, hm2⟩

theorem run_invariant (userId : Option Nat) (actions : List Action) :
    ∀ w, RatingInvariant w → RatingInvariant (run userId w actions) := by
  induction actions with
  | nil => intro w h; exact h
  | cons a rest ih =>
    intro w h
    exact ih _ (step_invariant userId w a h)

/-- C6: from the initial screen over a store whose ratings are absent or within 1 to 5,
after every sequence of actions `mealRating` is within 1 to 5; hence every statement that
`saveJournal` would issue binds a rating (never null) within 1 to 5, and the stored
ratings stay absent or within 1 to 5. -/
theorem mealRating_in_range (userId : Option Nat) (t : Table) (h : RatingsInRange t.rows)
    (actions : List Action) :
    1 ≤ (run userId { table := t, screen := initialScreen } actions).screen.mealRating
    ∧ (run userId { table := t, screen := initialScreen } actions).screen.mealRating ≤ 5
    ∧ (∀ now stmt,
        saveStmt (run userId { table := t, screen := initialScreen } actions).screen
          userId now = some stmt →
        ∃ v, writtenRating stmt = some v ∧ 1 ≤ v ∧ v ≤ 5)
    ∧ RatingsInRange (run userId { table := t, screen := initialScreen } actions).table.rows := by
  have hinit : RatingInvariant { table := t, screen := initialScreen } := by
    refine ⟨h, ?_, ?_, ?_⟩
    · intro r hr
      cases hr
    · simp [initialScreen]
    · simp [initialScreen]
  obtain ⟨h1, _, h3, h4⟩ := run_invariant userId actions _ hinit
  refine ⟨h3, h4, ?_, h1⟩
  intro now stmt hs
  exact ⟨_, saveStmt_writtenRating _ _ _ _ hs, h3, h4⟩

/-- User 2 loads the sample table, edits the unrated entry (the form shows 3), presses the
fifth star and saves. -/
theorem mealRating_in_range_witness :
    RatingsInRange sampleTable.rows
    ∧ (run (some 2) { table := sampleTable, screen := initialScreen }
        [Action.loadJournals true, Action.startEdit 0]).screen.mealRating = 3
    ∧ 1 ≤ (run (some 2) { table := sampleTable, screen := initialScreen }
        [Action.loadJournals true, Action.startEdit 0, Action.pressStar 4,
         Action.saveJournal "2024-03-01T09:30:00.000Z" true true]).screen.mealRating :=
  ⟨by simp [RatingsInRange, sampleTable], by decide,
    (mealRating_in_range (some 2) sampleTable (by simp [RatingsInRange, sampleTable])
      [Action.loadJournals true, Action.startEdit 0, Action.pressStar 4,
       Action.saveJournal "2024-03-01T09:30:00.000Z" true true]).1⟩

/-! ## Validation -/

theorem trim_data (s : String) :
    (trim s).data
      = ((s.data.dropWhile isJsWhitespace).reverse.dropWhile isJsWhitespace).reverse := rfl

/-- A trimmed text neither starts nor ends with white space. -/
theorem trim_ends (s : String) :
    (∀ c, (trim s).data.head? = some c → isJsWhitespace c = false)
    ∧ (∀ c, (trim s).data.getLast? = some c → isJsWhitespace c = false) := by
  rw [trim_data]
  constructor
  · intro c hc
    -- the result is a prefix of the text without its leading white space
    have hsuf : (s.data.dropWhile isJsWhitespace).reverse.dropWhile isJsWhitespace
        <:+ (s.data.dropWhile isJsWhitespace).reverse := List.dropWhile_suffix _
    have hpre : ((s.data.dropWhile isJsWhitespace).reverse.dropWhile isJsWhitespace).reverse
        <+: s.data.dropWhile isJsWhitespace := by
      have := List.reverse_prefix.mpr hsuf
      rwa [List.reverse_reverse] at this
    obtain ⟨t, ht⟩ := hpre
    generalize ((s.data.dropWhile isJsWhitespace).reverse.dropWhile isJsWhitespace).reverse
      = l at hc ht
    cases l with
    | nil => cases hc
    | cons x xs =>
      simp only [List.head?_cons, Option.some.injEq] at hc
      subst hc
      have h := List.head?_dropWhile_not isJsWhitespace s.data
      rw [← ht] at h
      simpa using h
  · intro c hc
    rw [List.getLast?_reverse] at hc
    have h := List.head?_dropWhile_not isJsWhitespace
      (s.data.dropWhile isJsWhitespace).reverse
    rw [hc] at h
    simpa using h

theorem saveStmt_none_of_invalid (s : Screen) (userId : Option Nat) (now : String)
    (h : s.image = none ∨ s.image = some "" ∨ trim s.description = "") :
    saveStmt s userId now = none := by
  unfold saveStmt
  cases himg : s.image with
  | none => rfl
  | some image =>
    rcases h with h | h | h
    · rw [himg] at h; cases h
    · rw [himg] at h
      injection h with h
      simp [h]
    · simp [h]

theorem saveStmt_written (s : Screen) (userId : Option Nat) (now : String) (stmt : Stmt)
    (h : saveStmt s userId now = some stmt) :
    ∃ image, s.image = some image ∧ image ≠ "" ∧ trim s.description ≠ "" ∧
      writtenImage stmt = some image ∧
      writtenDescription stmt = some (trim s.description) := by
  unfold saveStmt at h
  cases himg : s.image with
  | none => simp [himg] at h
  | some image =>
    simp only [himg] at h
    split at h
    · simp at h
    · rename_i hvalid
      have hv : image ≠ "" ∧ trim s.description ≠ "" := by
        constructor
        · intro hc; exact hvalid (Or.inl hc)
        · intro hc; exact hvalid (Or.inr hc)
      refine ⟨image, rfl, hv.1, hv.2, ?_⟩
      cases userId with
      | none => simp at h
      | some uid =>
        simp only at h
        split at h
        · simp at h
        · cases hed : s.editingId with
          | none =>
            simp only [hed, Option.some.injEq] at h
            subst h
            exact ⟨rfl, rfl⟩
          | some eid =>
            simp only [hed] at h
            split at h <;>
              (simp only [Option.some.injEq] at h; subst h; exact ⟨rfl, rfl⟩)

/-- C12: when the image is missing (`null` or empty) or the description is empty after
trimming, `saveJournal` issues no statement and leaves the store and the screen as they
were, whatever the runtime would do; and every statement `saveJournal` issues binds a
non-empty image and a non-empty description that is the form's description trimmed, with
no white space at either end. -/
theorem saveJournal_validation (w : World) (userId : Option Nat) (now : String) :
    ((w.screen.image = none ∨ w.screen.image = some "" ∨ trim w.screen.description = "") →
      saveStmt w.screen userId now = none ∧
      ∀ execOk loadOk, saveJournal w userId now execOk loadOk = w)
    ∧ (∀ stmt, saveStmt w.screen userId now = some stmt →
        ∃ image description,
          writtenImage stmt = some image ∧ image ≠ "" ∧
          writtenDescription stmt = some description ∧ description ≠ "" ∧
          description = trim w.screen.description ∧
          (∀ c, description.data.head? = some c → isJsWhitespace c = false) ∧
          (∀ c, description.data.getLast? = some c → isJsWhitespace c = false)) := by
  constructor
  · intro h
    have hs := saveStmt_none_of_invalid w.screen userId now h
    refine ⟨hs, ?_⟩
    intro execOk loadOk
    simp [saveJournal, hs]
  · intro stmt h
    obtain ⟨image, _, h1, h2, h3, h4⟩ := saveStmt_written w.screen userId now stmt h
    exact ⟨image, trim w.screen.description, h3, h1, h4, h2, rfl,
      (trim_ends w.screen.description).1, (trim_ends w.screen.description).2⟩

/-! ## The chart -/

/-- Correct rounding never exceeds a bound that is itself an integer below `2^53`: if
`a / b ≤ c` then the rounded quotient is at most `c`. -/
theorem roundDiv_le (a b c : Nat) (hc : c < 2 ^ 53) (h : a ≤ c * b) :
    (roundDiv a b).1 ≤ c * (roundDiv a b).2 := by
  have hq : a * 2 ^ (54 + ilog2 b) / b ≤ c * 2 ^ (54 + ilog2 b) := by
    apply Nat.div_le_of_le_mul
    calc a * 2 ^ (54 + ilog2 b) ≤ c * b * 2 ^ (54 + ilog2 b) := Nat.mul_le_mul_right _ h
      _ = b * (c * 2 ^ (54 + ilog2 b)) := by ring
  simp only [roundDiv]
  generalize a * 2 ^ (54 + ilog2 b) / b = q at hq ⊢
  generalize a * 2 ^ (54 + ilog2 b) % b = r
  generalize 54 + ilog2 b = k at hq ⊢
  have hkpos : 0 < 2 ^ k := Nat.pow_pos (by norm_num)
  -- the number of dropped bits is at most `k`
  have hsk : ilog2 q - 52 ≤ k := by
    rcases Nat.eq_zero_or_pos q with h0 | hpos
    · subst h0
      have : ilog2 0 = 0 := rfl
      omega
    · obtain ⟨hl, _⟩ := ilog2_spec q hpos
      by_contra hlt
      push_neg at hlt
      have h1 : 2 ^ (53 + k) ≤ 2 ^ ilog2 q := Nat.pow_le_pow_right (by norm_num) (by omega)
      have h2 : c * 2 ^ k < 2 ^ 53 * 2 ^ k := Nat.mul_lt_mul_of_pos_right hc hkpos
      rw [← pow_add] at h2
      omega
  obtain ⟨d, hd⟩ : ∃ d, k = (ilog2 q - 52) + d := ⟨k - (ilog2 q - 52), by omega⟩
  generalize ilog2 q - 52 = s at hd ⊢
  have hpk : 2 ^ k = 2 ^ s * 2 ^ d := by rw [hd, pow_add]
  have hspos : 0 < 2 ^ s := Nat.pow_pos (by norm_num)
  have hdm := Nat.div_add_mod q (2 ^ s)
  have hrem := Nat.mod_lt q hspos
  have hhalf : 0 < 2 ^ (s - 1) := Nat.pow_pos (by norm_num)
  rw [hpk] at hq ⊢
  generalize q / 2 ^ s = m0 at hdm ⊢
  generalize q % 2 ^ s = rem at hdm hrem ⊢
  generalize 2 ^ (s - 1) = half at hhalf ⊢
  -- with T the bound in units of the last kept bit
  have hT : c * (2 ^ s * 2 ^ d) = c * 2 ^ d * 2 ^ s := by ring
  rw [hT] at hq ⊢
  generalize c * 2 ^ d = T at hq ⊢
  have hm0 : m0 ≤ T := by
    by_contra hlt
    push_neg at hlt
    have : (T + 1) * 2 ^ s ≤ m0 * 2 ^ s := Nat.mul_le_mul_right _ hlt
    rw [Nat.add_mul, Nat.one_mul, Nat.mul_comm m0] at this
    omega
  by_cases hup : (decide (half < rem) || (decide (rem = half) &&
      (decide (r ≠ 0) || decide (m0 % 2 = 1)))) = true
  · rw [if_pos hup]
    apply Nat.mul_le_mul_right
    rcases Nat.lt_or_ge m0 T with hlt | hge
    · exact hlt
    · exfalso
      have hmT : m0 = T := le_antisymm hm0 hge
      subst hmT
      have hrem0 : rem = 0 := by
        rw [Nat.mul_comm] at hq
        omega
      subst hrem0
      simp only [Bool.or_eq_true, Bool.and_eq_true, decide_eq_true_eq] at hup
      rcases hup with h1 | ⟨h1, _⟩ <;> omega
  · rw [if_neg hup]
    exact Nat.mul_le_mul_right _ hm0

theorem roundDiv_pos (a b : Nat) (ha : 0 < a) (hb : 0 < b) :
    0 < (roundDiv a b).1 ∧ 0 < (roundDiv a b).2 := by
  obtain ⟨hD, _, h2⟩ := roundDiv_error a b ha hb
  refine ⟨?_, hD⟩
  by_contra h0
  have h0' : (roundDiv a b).1 = 0 := by omega
  rw [h0'] at h2
  have : 0 < a * (roundDiv a b).2 * (2 ^ 53 - 1) :=
    Nat.mul_pos (Nat.mul_pos ha hD) (by norm_num)
  omega

/-- A ratio `count / length` with `count ≤ length`, times 100, is a Number from 0 to 100. -/
theorem numMul100_numDiv_le (count len : Nat) (hlen : len ≠ 0) (hle : count ≤ len) :
    ∃ num den, numMul100 (numDiv count len) = Num.fin false num den ∧ 0 < den ∧
      num ≤ 100 * den ∧ (count = 0 → num = 0) := by
  by_cases hc : count = 0
  · subst hc
    refine ⟨0, 1, ?_, by norm_num, by norm_num, fun _ => rfl⟩
    simp [numDiv, hlen, numMul100]
  · have hcpos : 0 < count := Nat.pos_of_ne_zero hc
    have hlpos : 0 < len := Nat.pos_of_ne_zero hlen
    obtain ⟨hN, hD⟩ := roundDiv_pos count len hcpos hlpos
    have h1 : (roundDiv count len).1 ≤ 1 * (roundDiv count len).2 :=
      roundDiv_le count len 1 (by norm_num) (by omega)
    have hne : (roundDiv count len).1 ≠ 0 := by omega
    have h100 : 100 * (roundDiv count len).1 ≤ 100 * (roundDiv count len).2 := by omega
    have h2 := roundDiv_le (100 * (roundDiv count len).1) (roundDiv count len).2 100
      (by norm_num) h100
    obtain ⟨_, hD2⟩ := roundDiv_pos (100 * (roundDiv count len).1) (roundDiv count len).2
      (by omega) hD
    refine ⟨_, _, ?_, hD2, h2, fun h => absurd h hc⟩
    have hcz : ¬ ((count : Int) = 0) := by exact_mod_cast hc
    have hneg : ¬ ((count : Int) < 0) := by omega
    simp [numDiv, hlen, hcz, hneg, numMul100, hne]

theorem getStats_category (journals : List Journal) (c : String)
    (hc : c ∈ ["Breakfast", "Lunch", "Dinner", "Snacks"]) :
    getKey (getStats journals) c
      = some (StatValue.count (journals.countP (fun e => decide (e.category = c)))) := by
  simp only [List.mem_cons, List.mem_singleton, List.not_mem_nil, or_false] at hc
  rcases hc with rfl | rfl | rfl | rfl <;>
    simp [getStats, categories, setKey, getKey, List.countP_eq_length_filter]

theorem getStats_total (journals : List Journal) :
    getKey (getStats journals) "Total" = some (StatValue.count journals.length) := by
  simp [getStats, categories, setKey, getKey]

theorem countP_categories (journals : List Journal) :
    journals.countP (fun e => decide (e.category = "Breakfast"))
      + journals.countP (fun e => decide (e.category = "Lunch"))
      + journals.countP (fun e => decide (e.category = "Dinner"))
      + journals.countP (fun e => decide (e.category = "Snacks")) ≤ journals.length
    ∧ (journals.countP (fun e => decide (e.category = "Breakfast"))
      + journals.countP (fun e => decide (e.category = "Lunch"))
      + journals.countP (fun e => decide (e.category = "Dinner"))
      + journals.countP (fun e => decide (e.category = "Snacks")) = journals.length
      ↔ ∀ e ∈ journals, e.category = "Breakfast" ∨ e.category = "Lunch" ∨
          e.category = "Dinner" ∨ e.category = "Snacks") := by
  induction journals with
  | nil => simp
  | cons x xs ih =>
    obtain ⟨ih1, ih2⟩ := ih
    simp only [List.countP_cons, List.length_cons, List.mem_cons, forall_eq_or_imp,
      decide_eq_true_eq]
    rw [← ih2]
    generalize List.countP (fun e => decide (e.category = "Breakfast")) xs = nB at *
    generalize List.countP (fun e => decide (e.category = "Lunch")) xs = nL at *
    generalize List.countP (fun e => decide (e.category = "Dinner")) xs = nD at *
    generalize List.countP (fun e => decide (e.category = "Snacks")) xs = nS at *
    by_cases hB : x.category = "Breakfast"
    · simp only [hB, if_true, true_or, true_and]
      have e1 : ¬ ("Breakfast" = "Lunch") := by decide
      have e2 : ¬ ("Breakfast" = "Dinner") := by decide
      have e3 : ¬ ("Breakfast" = "Snacks") := by decide
      simp only [e1, e2, e3, if_false]
      omega
    · by_cases hL : x.category = "Lunch"
      · have e1 : ¬ ("Lunch" = "Breakfast") := by decide
        have e2 : ¬ ("Lunch" = "Dinner") := by decide
        have e3 : ¬ ("Lunch" = "Snacks") := by decide
        simp only [hL, e1, e2, e3, if_true, if_false, true_or, or_true, true_and]
        omega
      · by_cases hD : x.category = "Dinner"
        · have e1 : ¬ ("Dinner" = "Breakfast") := by decide
          have e2 : ¬ ("Dinner" = "Lunch") := by decide
          have e3 : ¬ ("Dinner" = "Snacks") := by decide
          simp only [hD, e1, e2, e3, if_true, if_false, true_or, or_true, true_and]
          omega
        · by_cases hS : x.category = "Snacks"
          · have e1 : ¬ ("Snacks" = "Breakfast") := by decide
            have e2 : ¬ ("Snacks" = "Lunch") := by decide
            have e3 : ¬ ("Snacks" = "Dinner") := by decide
            simp only [hS, e1, e2, e3, if_true, if_false, or_true, true_and]
            omega
          · simp only [hB, hL, hD, hS, if_false, or_self, false_and]
            refine ⟨by omega, ?_⟩
            constructor
            · intro h
              omega
            · intro h
              exact h.elim

/-- C15: the four category counts of `getStats` add up to at most `Total`, and to exactly
`Total` if and only if every entry's category is one of the four; each percentage of the
chart is a Number from 0 to 100 (0 for a count of 0), and 0 when there are no entries. -/
theorem category_counts_le_total (journals : List Journal) :
    countOrZero (getKey (getStats journals) "Breakfast")
      + countOrZero (getKey (getStats journals) "Lunch")
      + countOrZero (getKey (getStats journals) "Dinner")
      + countOrZero (getKey (getStats journals) "Snacks")
      ≤ countOrZero (getKey (getStats journals) "Total")
    ∧ (countOrZero (getKey (getStats journals) "Breakfast")
      + countOrZero (getKey (getStats journals) "Lunch")
      + countOrZero (getKey (getStats journals) "Dinner")
      + countOrZero (getKey (getStats journals) "Snacks")
      = countOrZero (getKey (getStats journals) "Total")
      ↔ ∀ e ∈ journals, e.category ∈ ["Breakfast", "Lunch", "Dinner", "Snacks"])
    ∧ (∀ cat ∈ categories.drop 1, ∃ num den,
        chartPercentage journals cat = Num.fin false num den ∧ 0 < den ∧
        num ≤ 100 * den ∧
        (countOrZero (getKey (getStats journals) cat) = 0 → num = 0))
    ∧ (∀ cat, chartPercentage [] cat = Num.fin false 0 1) := by
  have hB := getStats_category journals "Breakfast" (by simp)
  have hL := getStats_category journals "Lunch" (by simp)
  have hD := getStats_category journals "Dinner" (by simp)
  have hS := getStats_category journals "Snacks" (by simp)
  have hT := getStats_total journals
  obtain ⟨h1, h2⟩ := countP_categories journals
  refine ⟨?_, ?_, ?_, ?_⟩
  · rw [hB, hL, hD, hS, hT]
    exact h1
  · rw [hB, hL, hD, hS, hT]
    simp only [countOrZero]
    rw [h2]
    simp
  · intro cat hcat
    have hmem : cat ∈ ["Breakfast", "Lunch", "Dinner", "Snacks"] := by
      simpa [categories] using hcat
    have hk := getStats_category journals cat hmem
    unfold chartPercentage
    rw [hk]
    simp only [countOrZero]
    by_cases hlen : journals.length = 0
    · have hnil : journals = [] := List.length_eq_zero.mp hlen
      subst hnil
      exact ⟨0, 1, by simp, by norm_num, by norm_num, fun _ => rfl⟩
    · simp only [ne_eq, hlen, not_false_eq_true, if_true]
      exact numMul100_numDiv_le _ _ hlen (List.countP_le_length _)
  · intro cat
    simp [chartPercentage]

/-! ## The module -/

theorem createTable_mem (tables : List String) (name x : String) (h : x ∈ tables) :
    x ∈ createTable tables name := by
  unfold createTable
  split
  · exact h
  · exact List.mem_append_left _ h

theorem createTable_self (tables : List String) (name : String) :
    name ∈ createTable tables name := by
  unfold createTable
  split
  · assumption
  · simp

theorem createTable_nodup (tables : List String) (name : String) (h : tables.Nodup) :
    (createTable tables name).Nodup := by
  unfold createTable
  split
  · exact h
  · rename_i hn
    rw [List.nodup_append]
    refine ⟨h, List.nodup_singleton _, ?_⟩
    intro a ha hb
    simp only [List.mem_singleton] at hb
    subst hb
    exact hn ha

/-- What `initDatabase` does, case by case. -/
theorem initDatabase_cases (m : Module) (st : Store) (fault : InitFault) :
    (m.isInitialized = true ∧
      initDatabase m st fault = { result := Except.ok m.db, module := m, store := st })
    ∨ (m.isInitialized = false ∧ ∃ e,
        (initDatabase m st fault).result = Except.error e ∧
        (∃ s, fault = some (s, e)) ∧
        (initDatabase m st fault).module.isInitialized = false ∧
        (initDatabase m st fault).store.tables = st.tables ∧
        st.opened ≤ (initDatabase m st fault).store.opened ∧
        (∃ ops, (initDatabase m st fault).store.log = st.log ++ Op.openDatabase :: ops ∧
          ops.count Op.openDatabase = 0 ∧
          ops.filter isStatement = []))
    ∨ (m.isInitialized = false ∧ fault = none ∧
        initDatabase m st fault =
          { result := Except.ok (some st.opened),
            module := { db := some st.opened, isInitialized := true },
            store := { tables := createTable (createTable st.tables "users") "journals",
                       opened := st.opened + 1,
                       log := st.log ++ [Op.openDatabase, Op.pragma st.opened,
                         Op.createUsers st.opened, Op.createJournals st.opened,
                         Op.commit st.opened] } }) := by
  cases hm : m.isInitialized with
  | true => left; simp [initDatabase, hm]
  | false =>
    right
    rcases fault with _ | ⟨s, e⟩
    · right
      refine ⟨rfl, rfl, ?_⟩
      simp [initDatabase, hm, faultAt]
    · left
      refine ⟨rfl, e, ?_⟩
      cases s <;>
        simp [initDatabase, hm, faultAt, List.count_cons, List.count_nil, isStatement]


theorem ready_of_log_append (m : Module) (st : Store) (ops : List Op) (h : Ready m st) :
    Ready m { st with log := st.log ++ ops } := by
  obtain ⟨conn, h1, h2, h3, h4, h5, h6, h7⟩ := h
  exact ⟨conn, h1, h2, List.mem_append_left _ h3, List.mem_append_left _ h4,
    List.mem_append_left _ h5, h6, h7⟩

theorem ready_after_init (st : Store) :
    Ready { db := some st.opened, isInitialized := true }
      { tables := createTable (createTable st.tables "users") "journals",
        opened := st.opened + 1,
        log := st.log ++ [Op.openDatabase, Op.pragma st.opened,
          Op.createUsers st.opened, Op.createJournals st.opened, Op.commit st.opened] } := by
  refine ⟨st.opened, rfl, Nat.lt_succ_self _, ?_, ?_, ?_, ?_, ?_⟩
  · simp
  · simp
  · simp
  · exact createTable_mem _ _ _ (createTable_self _ _)
  · exact createTable_self _ _

theorem initDatabase_flagSound (m : Module) (st : Store) (fault : InitFault)
    (h : FlagSound m st) :
    FlagSound (initDatabase m st fault).module (initDatabase m st fault).store := by
  rcases initDatabase_cases m st fault with ⟨_, h1⟩ | ⟨_, e, _, _, h1, _⟩ | ⟨_, _, h1⟩
  · rw [h1]; exact h
  · intro hc
    rw [h1] at hc
    cases hc
  · rw [h1]
    intro _
    exact ready_after_init st

/-- What `getSql` and `executeSql` do, case by case, from a state whose flag is sound. -/
theorem withDatabase_cases {α : Type} (op : Nat → Op) (m : Module) (st : Store)
    (fault : InitFault) (outcome : Except Err α) (h : FlagSound m st) :
    (m.isInitialized = true ∧ ∃ conn, m.db = some conn ∧ Ready m st ∧
      withDatabase op m st fault outcome =
        { result := outcome, module := m,
          store := { st with log := st.log ++ [op conn] } })
    ∨ (m.isInitialized = false ∧ ∃ e,
        (initDatabase m st fault).result = Except.error e ∧
        withDatabase op m st fault outcome =
          { result := Except.error e, module := (initDatabase m st fault).module,
            store := (initDatabase m st fault).store })
    ∨ (m.isInitialized = false ∧ fault = none ∧
        withDatabase op m st fault outcome =
          { result := outcome,
            module := { db := some st.opened, isInitialized := true },
            store := { tables := createTable (createTable st.tables "users") "journals",
                       opened := st.opened + 1,
                       log := st.log ++ [Op.openDatabase, Op.pragma st.opened,
                         Op.createUsers st.opened, Op.createJournals st.opened,
                         Op.commit st.opened] ++ [op st.opened] } }) := by
  rcases initDatabase_cases m st fault with ⟨hm, _⟩ | ⟨hm, e, he, _⟩ | ⟨hm, hf, h1⟩
  · left
    obtain ⟨conn, hdb, hr⟩ := h hm
    refine ⟨hm, conn, hdb, ⟨conn, hdb, hr⟩, ?_⟩
    simp [withDatabase, hm, hdb]
  · right; left
    refine ⟨hm, e, he, ?_⟩
    simp only [withDatabase, hm, Bool.false_eq_true, if_false, he]
  · right; right
    refine ⟨hm, hf, ?_⟩
    simp only [withDatabase, hm, Bool.false_eq_true, if_false, h1]

theorem withDatabase_flagSound {α : Type} (op : Nat → Op) (m : Module) (st : Store)
    (fault : InitFault) (outcome : Except Err α) (h : FlagSound m st) :
    FlagSound (withDatabase op m st fault outcome).module
      (withDatabase op m st fault outcome).store := by
  rcases withDatabase_cases op m st fault outcome h with
    ⟨hm, conn, _, hr, h1⟩ | ⟨_, e, _, h1⟩ | ⟨_, _, h1⟩
  · rw [h1]
    intro _
    exact ready_of_log_append m st _ hr
  · rw [h1]
    exact initDatabase_flagSound m st fault h
  · rw [h1]
    intro _
    exact ready_of_log_append _ _ [op st.opened] (ready_after_init st)

theorem afterCall_flagSound (s : Module × Store) (c : Call) (h : FlagSound s.1 s.2) :
    FlagSound (afterCall s c).1 (afterCall s c).2 := by
  cases c with
  | initDatabase fault => exact initDatabase_flagSound _ _ _ h
  | getSql query fault outcome => exact withDatabase_flagSound _ _ _ _ _ h
  | executeSql query fault outcome => exact withDatabase_flagSound _ _ _ _ _ h

theorem foldl_afterCall_flagSound (calls : List Call) :
    ∀ s : Module × Store, FlagSound s.1 s.2 →
      FlagSound (calls.foldl afterCall s).1 (calls.foldl afterCall s).2 := by
  induction calls with
  | nil => intro s h; exact h
  | cons c rest ih => intro s h; exact ih _ (afterCall_flagSound s c h)

theorem afterCalls_flagSound (st : Store) (calls : List Call) :
    FlagSound (afterCalls st calls).1 (afterCalls st calls).2 :=
  foldl_afterCall_flagSound calls _ (by intro h; cases h)

theorem initDatabase_nodup (m : Module) (st : Store) (fault : InitFault)
    (h : st.tables.Nodup) : (initDatabase m st fault).store.tables.Nodup := by
  rcases initDatabase_cases m st fault with ⟨_, h1⟩ | ⟨_, e, _, _, _, h1, _⟩ | ⟨_, _, h1⟩
  · rw [h1]; exact h
  · rw [h1]; exact h
  · rw [h1]; exact createTable_nodup _ _ (createTable_nodup _ _ h)

theorem withDatabase_tables {α : Type} (op : Nat → Op) (m : Module) (st : Store)
    (fault : InitFault) (outcome : Except Err α) :
    (withDatabase op m st fault outcome).store.tables
      = if m.isInitialized = true then st.tables
        else (initDatabase m st fault).store.tables := by
  unfold withDatabase
  cases hm : m.isInitialized
  · simp only [Bool.false_eq_true, if_false]
    split
    · rfl
    · split <;> rfl
  · simp only [if_true]
    split <;> rfl

theorem withDatabase_nodup {α : Type} (op : Nat → Op) (m : Module) (st : Store)
    (fault : InitFault) (outcome : Except Err α) (h : st.tables.Nodup) :
    (withDatabase op m st fault outcome).store.tables.Nodup := by
  rw [withDatabase_tables]
  split
  · exact h
  · exact initDatabase_nodup m st fault h

theorem foldl_afterCall_nodup (calls : List Call) :
    ∀ s : Module × Store, s.2.tables.Nodup → (calls.foldl afterCall s).2.tables.Nodup := by
  induction calls with
  | nil => intro s h; exact h
  | cons c rest ih =>
    intro s h
    apply ih
    cases c with
    | initDatabase fault => exact initDatabase_nodup _ _ _ h
    | getSql query fault outcome => exact withDatabase_nodup _ _ _ _ _ h
    | executeSql query fault outcome => exact withDatabase_nodup _ _ _ _ _ h

theorem afterCalls_snoc (st : Store) (calls : List Call) (c : Call) :
    afterCalls st (calls ++ [c]) = afterCall (afterCalls st calls) c := by
  simp [afterCalls, List.foldl_append]

theorem initDatabase_of_initialized (m : Module) (st : Store) (fault : InitFault)
    (h : m.isInitialized = true) :
    initDatabase m st fault = { result := Except.ok m.db, module := m, store := st } := by
  simp [initDatabase, h]

theorem foldl_init_of_initialized (laters : List InitFault) (m : Module) (st : Store)
    (h : m.isInitialized = true) :
    (laters.map Call.initDatabase).foldl afterCall (m, st) = (m, st) := by
  induction laters with
  | nil => rfl
  | cons f rest ih =>
    simp only [List.map_cons, List.foldl_cons, afterCall, initDatabase_of_initialized m st f h]
    exact ih

theorem initDatabase_success (m : Module) (st : Store) (fault : InitFault)
    (conn : Option Nat) (hs : FlagSound m st)
    (hok : (initDatabase m st fault).result = Except.ok conn) :
    (initDatabase m st fault).module.isInitialized = true ∧
    (initDatabase m st fault).module.db = conn ∧ ∃ c, conn = some c := by
  rcases initDatabase_cases m st fault with ⟨hm, h1⟩ | ⟨_, e, he, _⟩ | ⟨_, _, h1⟩
  · rw [h1] at hok ⊢
    injection hok with hok
    obtain ⟨c, hc, _⟩ := hs hm
    exact ⟨hm, hok, c, by rw [← hok, hc]⟩
  · rw [he] at hok
    cases hok
  · rw [h1] at hok ⊢
    injection hok with hok
    exact ⟨rfl, hok, st.opened, hok.symm⟩

/-- Once the flag is set a call changes neither the module variables nor the tables, opens
nothing, and adds to the record of calls made only the statement it runs. -/
theorem afterCall_of_initialized (s : Module × Store) (c : Call) (hs : FlagSound s.1 s.2)
    (h : s.1.isInitialized = true) :
    (afterCall s c).1 = s.1 ∧ (afterCall s c).2.tables = s.2.tables ∧
    (afterCall s c).2.opened = s.2.opened ∧
    (afterCall s c).2.log.filter (fun op => !isStatement op)
      = s.2.log.filter (fun op => !isStatement op) := by
  have hw : ∀ {α : Type} (op : Nat → Op) (f : InitFault) (out : Except Err α),
      (∀ c, isStatement (op c) = true) →
      (withDatabase op s.1 s.2 f out).module = s.1 ∧
      (withDatabase op s.1 s.2 f out).store.tables = s.2.tables ∧
      (withDatabase op s.1 s.2 f out).store.opened = s.2.opened ∧
      (withDatabase op s.1 s.2 f out).store.log.filter (fun op => !isStatement op)
        = s.2.log.filter (fun op => !isStatement op) := by
    intro α op f out hop
    rcases withDatabase_cases op s.1 s.2 f out hs with
      ⟨_, conn, _, _, h1⟩ | ⟨hm, _⟩ | ⟨hm, _⟩
    · rw [h1]
      refine ⟨rfl, rfl, rfl, ?_⟩
      simp [List.filter_append, List.filter_cons, hop conn]
    · rw [h] at hm; cases hm
    · rw [h] at hm; cases hm
  cases c with
  | initDatabase fault =>
    have e := initDatabase_of_initialized s.1 s.2 fault h
    show (initDatabase s.1 s.2 fault).module = s.1 ∧
      (initDatabase s.1 s.2 fault).store.tables = s.2.tables ∧
      (initDatabase s.1 s.2 fault).store.opened = s.2.opened ∧
      (initDatabase s.1 s.2 fault).store.log.filter (fun op => !isStatement op)
        = s.2.log.filter (fun op => !isStatement op)
    rw [e]
    exact ⟨rfl, rfl, rfl, rfl⟩
  | getSql query fault outcome => exact hw _ fault outcome (fun _ => rfl)
  | executeSql query fault outcome => exact hw _ fault outcome (fun _ => rfl)

theorem foldl_afterCall_of_initialized (laters : List Call) :
    ∀ s : Module × Store, FlagSound s.1 s.2 → s.1.isInitialized = true →
      (laters.foldl afterCall s).1 = s.1 ∧ (laters.foldl afterCall s).2.tables = s.2.tables ∧
      (laters.foldl afterCall s).2.opened = s.2.opened ∧
      (laters.foldl afterCall s).2.log.filter (fun op => !isStatement op)
        = s.2.log.filter (fun op => !isStatement op) := by
  induction laters with
  | nil => intro s _ _; exact ⟨rfl, rfl, rfl, rfl⟩
  | cons c rest ih =>
    intro s hs h
    obtain ⟨h1, h2, h3, h4⟩ := afterCall_of_initialized s c hs h
    obtain ⟨k1, k2, k3, k4⟩ := ih (afterCall s c) (afterCall_flagSound s c hs) (by rw [h1]; exact h)
    simp only [List.foldl_cons]
    exact ⟨k1.trans h1, k2.trans h2, k3.trans h3, k4.trans h4⟩

/-- The tables after a successful call, whatever was called before. -/
theorem tables_once (st : Store) (hnd : st.tables.Nodup) (calls : List Call)
    (h : (afterCalls st calls).1.isInitialized = true) :
    (afterCalls st calls).2.tables.count "users" = 1 ∧
    (afterCalls st calls).2.tables.count "journals" = 1 := by
  have hn : (afterCalls st calls).2.tables.Nodup := foldl_afterCall_nodup calls _ hnd
  obtain ⟨_, _, _, _, _, _, hu, hj⟩ := afterCalls_flagSound st calls h
  exact ⟨List.count_eq_one_of_mem hn hu, List.count_eq_one_of_mem hn hj⟩

theorem withDatabase_propagatesOnce {α : Type} (op : Nat → Op)
    (hop : ∀ c, isStatement (op c) = true) (m : Module) (st : Store) (h : FlagSound m st) :
    PropagatesOnce (withDatabase (α := α) op) m st := by
  unfold PropagatesOnce
  intro fault outcome
  have hne : ∀ c, Op.openDatabase ≠ op c := by
    intro c hc
    have := hop c
    rw [← hc] at this
    cases this
  rcases withDatabase_cases op m st fault outcome h with
    ⟨hm, conn, _, _, h1⟩ | ⟨hm, e, he, h1⟩ | ⟨hm, hf, h1⟩
  · rw [h1]
    refine ⟨?_, ?_, ?_, [op conn], rfl, ?_, ?_⟩
    · intro r
      simp [hm]
    · intro e hc
      rw [hm] at hc
      cases hc
    · intro e _ ho
      exact ho
    · exact List.count_le_length _ _
    · exact List.length_filter_le _ _
  · rw [h1]
    rcases (initDatabase_cases m st fault).resolve_left (by rw [hm]; simp) with
      ⟨_, e', he', _, _, _, _, ops, hlog, hcount, hfil⟩ | ⟨_, _, h3⟩
    · refine ⟨?_, ?_, ?_, Op.openDatabase :: ops, hlog, ?_, ?_⟩
      · intro r
        simp [hm, he]
      · intro e2 _ he2
        rw [he] at he2
        injection he2 with he2
        subst he2
        exact ⟨rfl, rfl⟩
      · intro e2 hc
        rcases hc with hc | ⟨c, hc⟩
        · rw [hm] at hc; cases hc
        · rw [he] at hc; cases hc
      · simp [List.count_cons, hcount]
      · simp [List.filter_cons, isStatement, hfil]
    · rw [h3] at he
      cases he
  · rw [h1]
    have hi : (initDatabase m st fault).result = Except.ok (some st.opened) := by
      subst hf
      simp [initDatabase, hm, faultAt]
    refine ⟨?_, ?_, ?_,
      [Op.openDatabase, Op.pragma st.opened, Op.createUsers st.opened,
        Op.createJournals st.opened, Op.commit st.opened] ++ [op st.opened], ?_, ?_, ?_⟩
    · intro r
      constructor
      · intro hr
        exact ⟨Or.inr ⟨_, hi⟩, hr⟩
      · intro hr
        exact hr.2
    · intro e _ he
      rw [hi] at he
      cases he
    · intro e _ ho
      exact ho
    · simp
    · simp [List.count_cons, hne]
    · rw [List.filter_append]
      have e : List.filter isStatement [Op.openDatabase, Op.pragma st.opened,
          Op.createUsers st.opened, Op.createJournals st.opened, Op.commit st.opened]
          = [] := rfl
      rw [e, List.nil_append]
      exact List.length_filter_le _ _

theorem withDatabase_guarded {α : Type} (op : Nat → Op)
    (hop : ∀ c, ∃ q, op c = Op.getAll c q ∨ op c = Op.runStmt c q)
    (m : Module) (st : Store) (h : FlagSound m st) :
    GuardedBySchema (withDatabase (α := α) op) m st := by
  unfold GuardedBySchema
  intro fault outcome
  have hst : ∀ c, isStatement (op c) = true := by
    intro c
    obtain ⟨q, hq | hq⟩ := hop c <;> rw [hq] <;> rfl
  rcases withDatabase_cases op m st fault outcome h with
    ⟨hm, conn, hdb, hr, h1⟩ | ⟨hm, e, he, h1⟩ | ⟨hm, hf, h1⟩
  · left
    rw [h1]
    obtain ⟨q, hq⟩ := hop conn
    refine ⟨[], op conn, ?_, hst conn, rfl, hm, ?_, conn, q, hdb, hq⟩
    · simp
    · simpa using hr
  · right
    rw [h1]
    rcases (initDatabase_cases m st fault).resolve_left (by rw [hm]; simp) with
      ⟨_, e', he', _, hflag, _, _, ops, hlog, _, hfil⟩ | ⟨_, _, h3⟩
    · refine ⟨e, Op.openDatabase :: ops, rfl, hlog, ?_, hflag⟩
      simp [List.filter_cons, isStatement, hfil]
    · rw [h3] at he
      cases he
  · left
    rw [h1]
    obtain ⟨q, hq⟩ := hop st.opened
    refine ⟨[Op.openDatabase, Op.pragma st.opened, Op.createUsers st.opened,
        Op.createJournals st.opened, Op.commit st.opened], op st.opened, ?_, hst _,
      ?_, rfl, ?_, st.opened, q, rfl, hq⟩
    · simp
    · simp [List.filter_cons, isStatement]
    · exact ready_after_init st

/-- C13: in every state the module reaches, `getSql` and `executeSql` return a result
exactly when the initialisation (when the flag is not yet set) and the statement both
succeed, and the result is the statement's; an error of the initialisation is thrown as
it is, without the statement running; an error of the statement is thrown as it is; and a
call opens the store at most once and runs at most one statement (no retry). -/
theorem sql_propagatesOnce (st : Store) (calls : List Call) (query : String) :
    PropagatesOnce (getSql (α := List Journal) query)
      (afterCalls st calls).1 (afterCalls st calls).2
    ∧ PropagatesOnce (executeSql (α := Unit) query)
      (afterCalls st calls).1 (afterCalls st calls).2 :=
  ⟨withDatabase_propagatesOnce (fun conn => Op.getAll conn query) (fun _ => rfl) _ _
      (afterCalls_flagSound st calls),
    withDatabase_propagatesOnce (fun conn => Op.runStmt conn query) (fun _ => rfl) _ _
      (afterCalls_flagSound st calls)⟩

/-! ## Overlapping calls -/

theorem issueStatement_spec (entry : Entry) (s : Sys) :
    (issueStatement entry s).2.module = s.module ∧
    (issueStatement entry s).2.opened = s.opened ∧
    (issueStatement entry s).2.committed = s.committed ∧
    (issueStatement entry s).2.tasks = s.tasks ∧
    (issueStatement entry s).2.log.filter (fun op => !isStatement op)
      = s.log.filter (fun op => !isStatement op) ∧
    initInFlight (issueStatement entry s).1 = false ∧
    needsDb (issueStatement entry s).1 = false ∧
    (issueStatement entry s).1 ≠ Pc.initialized := by
  unfold issueStatement
  cases s.module.db with
  | none => exact ⟨rfl, rfl, rfl, rfl, rfl, rfl, rfl, fun h => by cases h⟩
  | some conn =>
    cases entry with
    | initDatabase => exact ⟨rfl, rfl, rfl, rfl, rfl, rfl, rfl, fun h => by cases h⟩
    | getSql query =>
      refine ⟨rfl, rfl, rfl, rfl, ?_, rfl, rfl, fun h => by cases h⟩
      simp [List.filter_append, isStatement]
    | executeSql query =>
      refine ⟨rfl, rfl, rfl, rfl, ?_, rfl, rfl, fun h => by cases h⟩
      simp [List.filter_append, isStatement]

theorem advance_settle (s : Sys) (task : Nat) (outcome : Except Err Unit) (t : Task)
    (h : s.tasks.get? task = some t) :
    advance s (Event.settle task outcome)
      = { (resume t.entry t.pc outcome s).2 with
          tasks := s.tasks.set task
            { entry := t.entry, pc := (resume t.entry t.pc outcome s).1 } } := by
  simp only [advance, h]

theorem advance_settle_none (s : Sys) (task : Nat) (outcome : Except Err Unit)
    (h : s.tasks.get? task = none) : advance s (Event.settle task outcome) = s := by
  simp only [advance, h]

/-- With the flag set and no call inside `initDatabase`, an event changes neither the
module variables nor the number of connections, and issues nothing but statements. -/
theorem advance_quiet (s : Sys) (ev : Event) (h : Quiet s) :
    Quiet (advance s ev) ∧ (advance s ev).module = s.module ∧
    (advance s ev).opened = s.opened ∧ (advance s ev).committed = s.committed ∧
    (advance s ev).log.filter (fun op => !isStatement op)
      = s.log.filter (fun op => !isStatement op) := by
  obtain ⟨hflag, hq⟩ := h
  cases ev with
  | call entry =>
    have hstart : (start entry s).2.module = s.module ∧ (start entry s).2.opened = s.opened ∧
        (start entry s).2.committed = s.committed ∧
        (start entry s).2.log.filter (fun op => !isStatement op)
          = s.log.filter (fun op => !isStatement op) ∧
        initInFlight (start entry s).1 = false := by
      unfold start
      rw [if_pos hflag]
      cases entry with
      | initDatabase => exact ⟨rfl, rfl, rfl, rfl, rfl⟩
      | getSql query =>
        obtain ⟨h1, h2, h3, _, h5, h6, _, _⟩ := issueStatement_spec (Entry.getSql query) s
        exact ⟨h1, h2, h3, h5, h6⟩
      | executeSql query =>
        obtain ⟨h1, h2, h3, _, h5, h6, _, _⟩ := issueStatement_spec (Entry.executeSql query) s
        exact ⟨h1, h2, h3, h5, h6⟩
    obtain ⟨h1, h2, h3, h4, h5⟩ := hstart
    refine ⟨⟨?_, ?_⟩, h1, h2, h3, h4⟩
    · show (start entry s).2.module.isInitialized = true
      rw [h1]; exact hflag
    · intro t ht
      simp only [advance, List.mem_append, List.mem_singleton] at ht
      rcases ht with ht | rfl
      · exact hq t ht
      · exact h5
  | settle task outcome =>
    cases hget : s.tasks.get? task with
    | none =>
      rw [advance_settle_none s task outcome hget]
      exact ⟨⟨hflag, hq⟩, rfl, rfl, rfl, rfl⟩
    | some t =>
      rw [advance_settle s task outcome t hget]
      have hmem : t ∈ s.tasks := List.get?_mem hget
      have hnot := hq t hmem
      have hres : (resume t.entry t.pc outcome s).2.module = s.module ∧
          (resume t.entry t.pc outcome s).2.opened = s.opened ∧
          (resume t.entry t.pc outcome s).2.committed = s.committed ∧
          (resume t.entry t.pc outcome s).2.log.filter (fun op => !isStatement op)
            = s.log.filter (fun op => !isStatement op) ∧
          initInFlight (resume t.entry t.pc outcome s).1 = false := by
        cases hpc : t.pc <;> rw [hpc] at hnot <;> simp only [initInFlight] at hnot <;>
          first
            | exact absurd hnot (by decide)
            | (cases outcome <;> exact ⟨rfl, rfl, rfl, rfl, rfl⟩)
            | (obtain ⟨h1, h2, h3, _, h5, h6, _, _⟩ := issueStatement_spec t.entry s
               cases outcome <;> exact ⟨h1, h2, h3, h5, h6⟩)
      obtain ⟨e1, e2, e3, e4, e5⟩ := hres
      refine ⟨⟨?_, ?_⟩, e1, e2, e3, e4⟩
      · show (resume t.entry t.pc outcome s).2.module.isInitialized = true
        rw [e1]; exact hflag
      · intro t' ht'
        rcases List.mem_or_eq_of_mem_set ht' with h' | rfl
        · exact hq t' h'
        · exact e5

theorem runEvents_quiet (events : List Event) :
    ∀ s : Sys, Quiet s →
      Quiet (runEvents s events) ∧ (runEvents s events).module = s.module ∧
      (runEvents s events).opened = s.opened ∧
      (runEvents s events).committed = s.committed ∧
      (runEvents s events).log.filter (fun op => !isStatement op)
        = s.log.filter (fun op => !isStatement op) := by
  induction events with
  | nil => intro s h; exact ⟨h, rfl, rfl, rfl, rfl⟩
  | cons ev rest ih =>
    intro s h
    obtain ⟨h0, h1, h2, h3, h4⟩ := advance_quiet s ev h
    obtain ⟨k0, k1, k2, k3, k4⟩ := ih (advance s ev) h0
    exact ⟨k0, k1.trans h1, k2.trans h2, k3.trans h3, k4.trans h4⟩

theorem issueStatement_inv (entry : Entry) (s : Sys) (hc : Core s)
    (hflag : s.module.isInitialized = true) :
    Core (issueStatement entry s).2 ∧ TaskOk (issueStatement entry s).2 (issueStatement entry s).1 := by
  obtain ⟨h1, h2, h3, _, _, _, h7, h8⟩ := issueStatement_spec entry s
  refine ⟨?_, ⟨?_, ?_, ?_⟩⟩
  · unfold Core at hc ⊢
    rw [h1, h2, h3]
    exact hc
  · intro hn
    rw [h7] at hn
    cases hn
  · intro c _
    rw [h1]
    exact hflag
  · intro _
    rw [h1]
    exact hflag

theorem resume_inv (entry : Entry) (pc : Pc) (outcome : Except Err Unit) (s : Sys)
    (hc : Core s) (ht : TaskOk s pc) :
    Core (resume entry pc outcome s).2 ∧
    TaskOk (resume entry pc outcome s).2 (resume entry pc outcome s).1 ∧
    (s.module.db.isSome = true → (resume entry pc outcome s).2.module.db.isSome = true) ∧
    (s.module.isInitialized = true →
      (resume entry pc outcome s).2.module.isInitialized = true) := by
  rcases s with ⟨⟨db, flag⟩, opened, committed, log, tasks⟩
  unfold Core TaskOk at *
  simp only at hc ht
  obtain ⟨hc1, hc2⟩ := hc
  obtain ⟨ht1, ht2, ht3⟩ := ht
  cases pc <;> cases outcome <;> cases db <;> cases entry <;>
    simp_all [resume, finishInit, issueStatement, needsDb]

theorem start_inv (entry : Entry) (s : Sys) (hc : Core s) :
    Core (start entry s).2 ∧ TaskOk (start entry s).2 (start entry s).1 ∧
    (start entry s).2.module = s.module := by
  have hdone : ∀ pc, needsDb pc = false → (∀ c, pc ≠ Pc.statement c) →
      pc ≠ Pc.initialized → TaskOk s pc := by
    intro pc h1 h2 h3
    refine ⟨?_, ?_, ?_⟩
    · intro h; rw [h1] at h; cases h
    · intro c h; exact absurd h (h2 c)
    · intro h; exact absurd h h3
  unfold start
  by_cases hflag : s.module.isInitialized = true
  · rw [if_pos hflag]
    cases entry with
    | initDatabase =>
      exact ⟨hc, hdone _ rfl (fun c h => by cases h) (fun h => by cases h), rfl⟩
    | getSql query =>
      obtain ⟨k1, k2⟩ := issueStatement_inv (Entry.getSql query) s hc hflag
      exact ⟨k1, k2, (issueStatement_spec _ s).1⟩
    | executeSql query =>
      obtain ⟨k1, k2⟩ := issueStatement_inv (Entry.executeSql query) s hc hflag
      exact ⟨k1, k2, (issueStatement_spec _ s).1⟩
  · rw [if_neg hflag]
    exact ⟨hc, hdone _ rfl (fun c h => by cases h) (fun h => by cases h), rfl⟩

theorem taskOk_mono (s s' : Sys) (pc : Pc)
    (hdb : s.module.db.isSome = true → s'.module.db.isSome = true)
    (hflag : s.module.isInitialized = true → s'.module.isInitialized = true)
    (h : TaskOk s pc) : TaskOk s' pc :=
  ⟨fun hn => hdb (h.1 hn), fun c hc => hflag (h.2.1 c hc), fun hc => hflag (h.2.2 hc)⟩

theorem advance_inv (s : Sys) (ev : Event) (h : SysInv s) : SysInv (advance s ev) := by
  obtain ⟨hc, ht⟩ := h
  cases ev with
  | call entry =>
    obtain ⟨k1, k2, k3⟩ := start_inv entry s hc
    refine ⟨k1, ?_⟩
    intro t hmem
    simp only [advance, List.mem_append, List.mem_singleton] at hmem
    rcases hmem with hmem | rfl
    · refine taskOk_mono s _ t.pc ?_ ?_ (ht t hmem)
      · intro hs; show (start entry s).2.module.db.isSome = true; rw [k3]; exact hs
      · intro hs; show (start entry s).2.module.isInitialized = true; rw [k3]; exact hs
    · exact k2
  | settle task outcome =>
    cases hget : s.tasks.get? task with
    | none =>
      rw [advance_settle_none s task outcome hget]
      exact ⟨hc, ht⟩
    | some t =>
      rw [advance_settle s task outcome t hget]
      obtain ⟨k1, k2, k3, k4⟩ :=
        resume_inv t.entry t.pc outcome s hc (ht t (List.get?_mem hget))
      refine ⟨k1, ?_⟩
      intro t' hmem
      rcases List.mem_or_eq_of_mem_set hmem with h' | rfl
      · exact taskOk_mono s _ t'.pc k3 k4 (ht t' h')
      · exact k2

theorem runEvents_inv (events : List Event) :
    ∀ s : Sys, SysInv s → SysInv (runEvents s events) := by
  induction events with
  | nil => intro s h; exact h
  | cons ev rest ih => intro s h; exact ih _ (advance_inv s ev h)

theorem freshSys_inv : SysInv freshSys := by
  refine ⟨⟨?_, ?_⟩, ?_⟩
  · intro h; cases h
  · intro c h; cases h
  · intro t h; cases h

theorem advance_settle_last (m : Module) (opened : Nat) (committed : List Nat)
    (log : List Op) (ts : List Task) (t : Task) (outcome : Except Err Unit) :
    advance { module := m, opened := opened, committed := committed, log := log,
              tasks := ts ++ [t] } (Event.settle ts.length outcome)
      = { (resume t.entry t.pc outcome
            { module := m, opened := opened, committed := committed, log := log,
              tasks := ts ++ [t] }).2 with
          tasks := ts ++ [Task.mk t.entry
            (resume t.entry t.pc outcome
              { module := m, opened := opened, committed := committed, log := log,
                tasks := ts ++ [t] }).1] } := by
  have hget : (ts ++ [t]).get? ts.length = some t := by simp
  rw [advance_settle _ _ _ t hget]
  simp

/-- A call of `initDatabase` that runs alone, from its start to its end with no other
event in between, leaves the module variables and the number of connections that
`initDatabase` computes, and ends as `initDatabase` returns or throws. -/
theorem initDatabase_alone (s : Sys) (st : Store) (hst : st.opened = s.opened)
    (fault : InitFault) :
    (runEvents s (Event.call Entry.initDatabase ::
        (settlements fault).map (Event.settle s.tasks.length))).module
      = (initDatabase s.module st fault).module
    ∧ (runEvents s (Event.call Entry.initDatabase ::
        (settlements fault).map (Event.settle s.tasks.length))).opened
      = (initDatabase s.module st fault).store.opened
    ∧ (runEvents s (Event.call Entry.initDatabase ::
        (settlements fault).map (Event.settle s.tasks.length))).tasks
      = s.tasks ++ [Task.mk Entry.initDatabase
          (endOf (initDatabase s.module st fault).result)] := by
  rcases s with ⟨⟨db, flag⟩, opened, committed, log, ts⟩
  simp only at hst
  subst hst
  cases flag with
  | true =>
    rcases fault with _ | ⟨step, e⟩
    · simp [runEvents, settlements, advance, start, initDatabase, endOf,
        advance_settle_last, resume]
    · cases step <;>
        simp [runEvents, settlements, advance, start, initDatabase, endOf,
          advance_settle_last, resume]
  | false =>
    rcases fault with _ | ⟨step, e⟩
    · simp [runEvents, settlements, advance, start, initDatabase, endOf,
        advance_settle_last, resume, finishInit, faultAt]
    · cases step <;>
        simp [runEvents, settlements, advance, start, initDatabase, endOf,
          advance_settle_last, resume, finishInit, faultAt]

theorem resume_error_flag (entry : Entry) (pc : Pc) (e : Err) (s : Sys) :
    (resume entry pc (Except.error e) s).2.module.isInitialized = s.module.isInitialized := by
  cases pc <;> first
    | rfl
    | (show (issueStatement entry s).2.module.isInitialized = s.module.isInitialized
       rw [(issueStatement_spec entry s).1])

/-- C11 (amended): for calls that do not overlap, once a call of `initDatabase` has
succeeded, with handle `conn`, every later call of it returns that same handle, whatever is
called in between, and leaves the module and the store, with its record of calls made,
exactly as they were: nothing is opened and no `PRAGMA` or `CREATE TABLE` runs again, and
no later call fails; the store then has exactly one `users` and one `journals` table, in
particular after `n + 1` calls during which nothing fails.  When calls overlap, a call made
with the flag set still returns `db`, not `null`, at once and issues nothing; and once the
flag is set and no call is suspended inside `initDatabase`, `db` and the flag never change
again, nothing more is opened and only statements are issued, so all later calls return
the same handle. -/
theorem initDatabase_idempotent (st : Store) (hnd : st.tables.Nodup) (calls : List Call)
    (fault : InitFault) (conn : Option Nat)
    (hok : (initDatabase (afterCalls st calls).1 (afterCalls st calls).2 fault).result
      = Except.ok conn) :
    (∃ c, conn = some c)
    ∧ (∀ later : InitFault,
        initDatabase (afterCalls st (calls ++ [Call.initDatabase fault])).1
            (afterCalls st (calls ++ [Call.initDatabase fault])).2 later
          = { result := Except.ok conn,
              module := (afterCalls st (calls ++ [Call.initDatabase fault])).1,
              store := (afterCalls st (calls ++ [Call.initDatabase fault])).2 })
    ∧ (∀ laters : List InitFault,
        afterCalls st (calls ++ [Call.initDatabase fault] ++ laters.map Call.initDatabase)
          = afterCalls st (calls ++ [Call.initDatabase fault]))
    ∧ (∀ (laters : List Call) (later : InitFault),
        (afterCalls st (calls ++ [Call.initDatabase fault] ++ laters)).1
          = (afterCalls st (calls ++ [Call.initDatabase fault])).1
        ∧ (afterCalls st (calls ++ [Call.initDatabase fault] ++ laters)).2.tables
          = (afterCalls st (calls ++ [Call.initDatabase fault])).2.tables
        ∧ (afterCalls st (calls ++ [Call.initDatabase fault] ++ laters)).2.opened
          = (afterCalls st (calls ++ [Call.initDatabase fault])).2.opened
        ∧ (afterCalls st (calls ++ [Call.initDatabase fault] ++ laters)).2.log.filter
            (fun op => !isStatement op)
          = (afterCalls st (calls ++ [Call.initDatabase fault])).2.log.filter
            (fun op => !isStatement op)
        ∧ (initDatabase (afterCalls st (calls ++ [Call.initDatabase fault] ++ laters)).1
            (afterCalls st (calls ++ [Call.initDatabase fault] ++ laters)).2 later).result
          = Except.ok conn)
    ∧ (afterCalls st (calls ++ [Call.initDatabase fault])).2.tables.count "users" = 1
    ∧ (afterCalls st (calls ++ [Call.initDatabase fault])).2.tables.count "journals" = 1
    ∧ (∀ n : Nat,
        (afterCalls st (List.replicate (n + 1) (Call.initDatabase none))).1.isInitialized = true
        ∧ (afterCalls st (List.replicate (n + 1) (Call.initDatabase none))).2.tables.count
            "users" = 1
        ∧ (afterCalls st (List.replicate (n + 1) (Call.initDatabase none))).2.tables.count
            "journals" = 1)
    ∧ (∀ events : List Event, (runEvents freshSys events).module.isInitialized = true →
        ∃ c, (runEvents freshSys events).module.db = some c ∧
          advance (runEvents freshSys events) (Event.call Entry.initDatabase)
            = { runEvents freshSys events with
                tasks := (runEvents freshSys events).tasks ++
                  [Task.mk Entry.initDatabase (Pc.returned (some c))] })
    ∧ (∀ events later : List Event, Quiet (runEvents freshSys events) →
        (runEvents freshSys (events ++ later)).module = (runEvents freshSys events).module
        ∧ (runEvents freshSys (events ++ later)).opened = (runEvents freshSys events).opened
        ∧ (runEvents freshSys (events ++ later)).log.filter (fun op => !isStatement op)
          = (runEvents freshSys events).log.filter (fun op => !isStatement op)
        ∧ Quiet (runEvents freshSys (events ++ later))) := by
  obtain ⟨h1, h2, h3⟩ := initDatabase_success _ _ fault conn (afterCalls_flagSound st calls) hok
  have hinit : (afterCalls st (calls ++ [Call.initDatabase fault])).1.isInitialized = true := by
    rw [afterCalls_snoc]; exact h1
  have hdb : (afterCalls st (calls ++ [Call.initDatabase fault])).1.db = conn := by
    rw [afterCalls_snoc]; exact h2
  have hcount := tables_once st hnd _ hinit
  refine ⟨h3, ?_, ?_, ?_, hcount.1, hcount.2, ?_, ?_, ?_⟩
  · intro later
    rw [initDatabase_of_initialized _ _ later hinit, hdb]
  · intro laters
    unfold afterCalls at hinit ⊢
    rw [List.foldl_append]
    exact foldl_init_of_initialized laters _ _ hinit
  · intro laters later
    have hsound := afterCalls_flagSound st (calls ++ [Call.initDatabase fault])
    have hl : afterCalls st (calls ++ [Call.initDatabase fault] ++ laters)
        = laters.foldl afterCall (afterCalls st (calls ++ [Call.initDatabase fault])) := by
      simp only [afterCalls, List.foldl_append]
    obtain ⟨k1, k2, k3, k4⟩ := foldl_afterCall_of_initialized laters _ hsound hinit
    rw [hl]
    refine ⟨k1, k2, k3, k4, ?_⟩
    rw [initDatabase_of_initialized _ _ later (by rw [k1]; exact hinit), k1, hdb]
  · intro n
    have hfirst : (afterCalls st [Call.initDatabase none]).1.isInitialized = true := by
      simp [afterCalls, afterCall, initDatabase, initialModule, faultAt]
    have hrep : afterCalls st (List.replicate (n + 1) (Call.initDatabase none))
        = afterCalls st [Call.initDatabase none] := by
      have e : List.replicate (n + 1) (Call.initDatabase none)
          = [Call.initDatabase none] ++ (List.replicate n none).map Call.initDatabase := by
        simp [List.replicate_succ]
      rw [e]
      unfold afterCalls at hfirst ⊢
      rw [List.foldl_append]
      exact foldl_init_of_initialized _ _ _ hfirst
    rw [hrep]
    exact ⟨hfirst, tables_once st hnd _ hfirst⟩
  · intro events hflag
    obtain ⟨⟨hcore, _⟩, _⟩ := runEvents_inv events freshSys freshSys_inv
    obtain ⟨_, hsome⟩ := hcore hflag
    obtain ⟨c, hc⟩ := Option.isSome_iff_exists.mp hsome
    refine ⟨c, hc, ?_⟩
    simp only [advance, start, hflag, if_true, hc]
  · intro events later hq
    have hrun : runEvents freshSys (events ++ later)
        = runEvents (runEvents freshSys events) later := by
      simp only [runEvents, List.foldl_append]
    obtain ⟨k0, k1, k2, _, k4⟩ := runEvents_quiet later _ hq
    rw [hrun]
    exact ⟨k1, k2, k4, k0⟩

/-- A first call fails at the `PRAGMA`, the second succeeds on connection 1, and a third
returns connection 1 with nothing run. -/
theorem initDatabase_idempotent_witness :
    (initDatabase
        (afterCalls freshStore [Call.initDatabase (some (InitStep.pragma, "disk I/O error"))]).1
        (afterCalls freshStore [Call.initDatabase (some (InitStep.pragma, "disk I/O error"))]).2
        none).result = Except.ok (some 1)
    ∧ (afterCalls freshStore
        ([Call.initDatabase (some (InitStep.pragma, "disk I/O error"))] ++
          [Call.initDatabase none])).2.tables.count "users" = 1 :=
  ⟨rfl,
    (initDatabase_idempotent freshStore (by decide)
      [Call.initDatabase (some (InitStep.pragma, "disk I/O error"))] none (some 1)
      rfl).2.2.2.2.1⟩

/-- C11 (as stated, refuted): two calls A and B are made before anything settles and A
succeeds with connection 0 (after eight events the flag is set and B still awaits its
open); a later call C returns connection 0; the open of B then resolves and assigns `db`;
a later call D returns connection 1.  Two calls made after a success return different
handles. -/
theorem initDatabase_overlap_counterexample :
    (runEvents freshSys (overlappingCalls.take 8)).module.isInitialized = true
    ∧ (runEvents freshSys (overlappingCalls.take 8)).tasks
      = [Task.mk Entry.initDatabase (Pc.returned (some 0)),
         Task.mk Entry.initDatabase Pc.opening]
    ∧ (runEvents freshSys overlappingCalls).tasks
      = [Task.mk Entry.initDatabase (Pc.returned (some 0)),
         Task.mk Entry.initDatabase (Pc.pragma 1),
         Task.mk Entry.initDatabase (Pc.returned (some 0)),
         Task.mk Entry.initDatabase (Pc.returned (some 1))] := by
  refine ⟨?_, ?_, ?_⟩ <;> decide

/-- C14 (amended): for calls that do not overlap, in every state the module reaches a set
flag means that `db` is a connection that was opened, on which the transaction of the two
`CREATE TABLE` statements committed, and both tables exist; `getSql` and `executeSql` run
their statement only then, last and on that connection, or else throw without running it;
and a call of `initDatabase` that throws leaves the flag unset, so that the next
`initDatabase`, `getSql` or `executeSql` starts by opening the store again.  When calls
overlap, in every state reached a set flag means that `db` is a connection that was opened
and that the schema transaction of some call committed; a statement is in flight only
with the flag set; a promise that rejects never changes the flag; and every call made
while the flag is unset starts by opening the store. -/
theorem module_invariant (st : Store) (calls : List Call) :
    ((afterCalls st calls).1.isInitialized = true →
      Ready (afterCalls st calls).1 (afterCalls st calls).2)
    ∧ (∀ query, GuardedBySchema (getSql (α := List Journal) query)
        (afterCalls st calls).1 (afterCalls st calls).2)
    ∧ (∀ query, GuardedBySchema (executeSql (α := Unit) query)
        (afterCalls st calls).1 (afterCalls st calls).2)
    ∧ (∀ fault e,
        (initDatabase (afterCalls st calls).1 (afterCalls st calls).2 fault).result
          = Except.error e →
        (afterCalls st (calls ++ [Call.initDatabase fault])).1.isInitialized = false
        ∧ ∀ next : Call, ∃ ops,
            (afterCalls st (calls ++ [Call.initDatabase fault] ++ [next])).2.log
              = (afterCalls st (calls ++ [Call.initDatabase fault])).2.log
                  ++ Op.openDatabase :: ops)
    ∧ (∀ events : List Event,
        ((runEvents freshSys events).module.isInitialized = true →
          ∃ conn, (runEvents freshSys events).module.db = some conn ∧
            conn < (runEvents freshSys events).opened ∧
            (runEvents freshSys events).committed ≠ [])
        ∧ (∀ t ∈ (runEvents freshSys events).tasks, ∀ c, t.pc = Pc.statement c →
            (runEvents freshSys events).module.isInitialized = true)
        ∧ (∀ task e,
            (advance (runEvents freshSys events)
              (Event.settle task (Except.error e))).module.isInitialized
              = (runEvents freshSys events).module.isInitialized)
        ∧ ((runEvents freshSys events).module.isInitialized = false →
            ∀ entry, advance (runEvents freshSys events) (Event.call entry)
              = { runEvents freshSys events with
                  log := (runEvents freshSys events).log ++ [Op.openDatabase],
                  tasks := (runEvents freshSys events).tasks ++
                    [Task.mk entry Pc.opening] })) := by
  have hs := afterCalls_flagSound st calls
  refine ⟨hs, fun query => withDatabase_guarded _ (fun c => ⟨query, Or.inl rfl⟩) _ _ hs,
    fun query => withDatabase_guarded _ (fun c => ⟨query, Or.inr rfl⟩) _ _ hs, ?_, ?_⟩
  rotate_left
  · intro events
    obtain ⟨⟨hcore, hconn⟩, htasks⟩ := runEvents_inv events freshSys freshSys_inv
    refine ⟨?_, ?_, ?_, ?_⟩
    · intro hflag
      obtain ⟨hcom, hsome⟩ := hcore hflag
      obtain ⟨conn, hc⟩ := Option.isSome_iff_exists.mp hsome
      exact ⟨conn, hc, hconn conn hc, hcom⟩
    · intro t ht c hpc
      exact (htasks t ht).2.1 c hpc
    · intro task e
      cases hget : (runEvents freshSys events).tasks.get? task with
      | none => rw [advance_settle_none _ task _ hget]
      | some t =>
        rw [advance_settle _ task _ t hget]
        exact resume_error_flag t.entry t.pc e _
    · intro hflag entry
      simp [advance, start, hflag]
  intro fault e he
  have hflag : (afterCalls st (calls ++ [Call.initDatabase fault])).1.isInitialized = false := by
    rw [afterCalls_snoc]
    rcases initDatabase_cases (afterCalls st calls).1 (afterCalls st calls).2 fault with
      ⟨_, h1⟩ | ⟨_, _, _, _, h1, _⟩ | ⟨_, _, h1⟩
    · rw [h1] at he; cases he
    · exact h1
    · rw [h1] at he; cases he
  refine ⟨hflag, ?_⟩
  intro next
  have hs' := afterCalls_flagSound st (calls ++ [Call.initDatabase fault])
  rw [afterCalls_snoc st (calls ++ [Call.initDatabase fault]) next]
  generalize afterCalls st (calls ++ [Call.initDatabase fault]) = s at hflag hs' ⊢
  have hinit : ∀ f, ∃ ops, (initDatabase s.1 s.2 f).store.log
      = s.2.log ++ Op.openDatabase :: ops := by
    intro f
    rcases initDatabase_cases s.1 s.2 f with
      ⟨hm, _⟩ | ⟨_, _, _, _, _, _, _, ops, hlog, _⟩ | ⟨_, _, h1⟩
    · rw [hflag] at hm; cases hm
    · exact ⟨ops, hlog⟩
    · rw [h1]; exact ⟨_, rfl⟩
  have hwith : ∀ {α : Type} (op : Nat → Op) (f : InitFault) (out : Except Err α),
      ∃ ops, (withDatabase op s.1 s.2 f out).store.log = s.2.log ++ Op.openDatabase :: ops := by
    intro α op f out
    rcases withDatabase_cases op s.1 s.2 f out hs' with
      ⟨hm, _⟩ | ⟨_, _, _, h1⟩ | ⟨_, _, h1⟩
    · rw [hflag] at hm; cases hm
    · rw [h1]; exact hinit f
    · rw [h1]; exact ⟨_, by simp only [List.append_assoc, List.cons_append, List.nil_append]; rfl⟩
  cases next with
  | initDatabase f => exact hinit f
  | getSql q f out => exact hwith _ f out
  | executeSql q f out => exact hwith _ f out

/-- C14 (as stated, refuted): two calls A and B are made before anything settles, A
succeeds on connection 0 and the open of B then resolves: the flag is set while `db` is
connection 1, on which no transaction committed.  When the `PRAGMA` of B then rejects, B
throws and the flag is still set. -/
theorem module_overlap_counterexample :
    (runEvents freshSys lateOpen).module = { db := some 1, isInitialized := true }
    ∧ (runEvents freshSys lateOpen).committed = [0]
    ∧ Op.commit 1 ∉ (runEvents freshSys lateOpen).log
    ∧ (runEvents freshSys
        (lateOpen ++ [Event.settle 1 (Except.error "disk I/O error")])).tasks
      = [Task.mk Entry.initDatabase (Pc.returned (some 0)),
         Task.mk Entry.initDatabase (Pc.threw "disk I/O error")]
    ∧ (runEvents freshSys
        (lateOpen ++ [Event.settle 1 (Except.error "disk I/O error")])).module.isInitialized
      = true := by
  refine ⟨?_, ?_, ?_, ?_, ?_⟩ <;> decide

end FoodJournal
